import Mathlib

/-!
# Totemology: growth of totem rows and their bit-plane rendering

A shallow embedding of `src/main.go` (package `totemology`).

* `*big.Int` values are Lean `Int`s (exact, unbounded).
* `int64` values (`Totem.count`, the loop index `x`, the parameters `mod`, `a`, `b`)
  are Lean `Int`s; every `int64` operation of the source is reduced with `wrap64`,
  the two's-complement wrap-around of Go.
* `[]*big.Int` is `List Int`.  A Go slice always has `len < 2 ^ 63`; theorems that
  need this fact state it as a hypothesis on the row.
* `image.Gray` is a record of its rectangle (`width`, `height`, origin `(0, 0)`) and
  its pixel buffer `pix` with stride `width`.
* `WriteImage` is modelled up to the image it hands to `png.Encode`; a runtime panic
  before that point is `none` (`Outcome.failed Failure.runtimePanic`).
* `String` is modelled on Lean strings; `fmt.Sprint` of a `*big.Int` is its decimal text.
-/

namespace Totemology

/-! ## Definitions

### The source: machine integers, the totem, its growth methods and the renderer -/

/-- Reduction of an exact integer to the range of Go's `int64` (two's complement):
`9223372036854775808 = 2 ^ 63` and `18446744073709551616 = 2 ^ 64`. -/
def wrap64 (z : Int) : Int :=
  (z + 9223372036854775808) % 18446744073709551616 - 9223372036854775808

/-- Addition on `int64`: `a + b` in Go. -/
def add64 (a b : Int) : Int := wrap64 (a + b)

/-- Subtraction on `int64`: `a - b` in Go. -/
def sub64 (a b : Int) : Int := wrap64 (a - b)

/-- The `Totem` struct: `count int64` and `row []*big.Int`. -/
structure Totem where
  count : Int
  row : List Int
deriving DecidableEq

/-- The body of the `for x := int64(1); x < int64(len(totem.row)); x++` loop shared by
the six growth methods: `next[x] = row[x-1] * cL(x) + row[x] * cR(x)`, where `cL x` and
`cR x` are the `int64` arguments handed to `big.NewInt`. -/
def growBody (row : List Int) (cL cR : Int → Int) (next : List Int) (x : Nat) : List Int :=
  next.set x (row.getD (x - 1) 0 * cL x + row.getD x 0 * cR x)

/-- The whole loop: `x` runs over `1, 2, ..., len(row) - 1` in increasing order. -/
def growLoop (row : List Int) (cL cR : Int → Int) (next : List Int) : List Int :=
  (List.range' 1 (row.length - 1)).foldl (growBody row cL cR) next

/-- The statement sequence common to the six growth methods:
`next := make(len(row)+1)`, `next[0] = boundary`, the loop, `next[len(next)-1] = boundary`,
`totem.row = next`, `totem.count++`. -/
def grow (boundary : Int) (cL cR : Int → Int) (totem : Totem) : Totem :=
  let next := List.replicate (totem.row.length + 1) (0 : Int)
  let next := next.set 0 boundary
  let next := growLoop totem.row cL cR next
  let next := next.set (next.length - 1) boundary
  { row := next, count := add64 totem.count 1 }

/-- Method `GrowMissile`: coefficients `totem.count-x+1` and `1+x`. -/
def Totem.GrowMissile (totem : Totem) : Totem :=
  grow 1 (fun x => add64 (sub64 totem.count x) 1) (fun x => add64 1 x) totem

/-- Method `GrowArrow`: both coefficients are `totem.count`. -/
def Totem.GrowArrow (totem : Totem) : Totem :=
  grow 1 (fun _ => totem.count) (fun _ => totem.count) totem

/-- Method `GrowFace`: both coefficients are `1`. -/
def Totem.GrowFace (totem : Totem) : Totem :=
  grow 1 (fun _ => 1) (fun _ => 1) totem

/-- Method `GrowRocket(mod)`: coefficients `totem.count-x+mod` and `x+mod`. -/
def Totem.GrowRocket (totem : Totem) (mod : Int) : Totem :=
  grow 1 (fun x => add64 (sub64 totem.count x) mod) (fun x => add64 x mod) totem

/-- Method `GrowBody(mod)`: both coefficients are `mod`. -/
def Totem.GrowBody (totem : Totem) (mod : Int) : Totem :=
  grow 1 (fun _ => mod) (fun _ => mod) totem

/-- Method `GrowBeing(a, b)`: both coefficients are `b`, both ends are `a`. -/
def Totem.GrowBeing (totem : Totem) (a b : Int) : Totem :=
  grow a (fun _ => b) (fun _ => b) totem

/-- Function `NewTotem`: `new(Totem)`, a one-element row holding `1`, and `totem.count++`. -/
def NewTotem : Totem :=
  let totem : Totem := { count := 0, row := [] }
  let totem : Totem := { totem with row := List.replicate 1 (0 : Int) }
  let totem : Totem := { totem with row := totem.row.set 0 1 }
  { totem with count := add64 totem.count 1 }

/-- One growth call: the method and its arguments. -/
inductive Growth where
  | Missile
  | Arrow
  | Face
  | Rocket (mod : Int)
  | Body (mod : Int)
  | Being (a b : Int)
deriving DecidableEq

/-- Perform one growth call on a totem. -/
def Totem.Grow (totem : Totem) : Growth → Totem
  | .Missile => totem.GrowMissile
  | .Arrow => totem.GrowArrow
  | .Face => totem.GrowFace
  | .Rocket mod => totem.GrowRocket mod
  | .Body mod => totem.GrowBody mod
  | .Being a b => totem.GrowBeing a b

/-- Perform a finite sequence of growth calls, first call first. -/
def Totem.GrowAll (totem : Totem) (calls : List Growth) : Totem :=
  calls.foldl Totem.Grow totem

/-- The number of binary digits of `n`, by repeated halving; `fuel` bounds the number of
halvings and `fuel = n` is always enough. -/
def bitLenAux : Nat → Nat → Nat
  | 0, _ => 0
  | fuel + 1, n => if n = 0 then 0 else bitLenAux fuel (n / 2) + 1

/-- Go's `(*big.Int).BitLen`: the length of the absolute value in bits; `0` for `0`. -/
def BitLen (z : Int) : Nat := bitLenAux z.natAbs z.natAbs

/-- Go's `(*big.Int).Bit`: bit `i` of `z`, in two's complement for a negative `z`. -/
def Bit (z : Int) (i : Nat) : Nat := if z.testBit i then 1 else 0

/-- An `image.Gray` whose rectangle is `image.Rect(0, 0, width, height)`: the pixel buffer
`Pix`, the `Stride` between two lines, and the rectangle's `Max` corner. -/
structure Gray where
  pix : List Nat
  stride : Nat
  width : Nat
  height : Nat
deriving DecidableEq

/-- Go's `image.NewGray(image.Rect(0, 0, width, height))`: a zeroed buffer of
`width * height` pixels with `Stride = width`. -/
def NewGray (width height : Nat) : Gray :=
  { pix := List.replicate (width * height) 0, stride := width, width := width,
    height := height }

/-- Go's `Point.In` for the point `(x, y)` and the image's rectangle. -/
def Gray.In (img : Gray) (x y : Int) : Prop :=
  0 ≤ x ∧ x < img.width ∧ 0 ≤ y ∧ y < img.height

instance (img : Gray) (x y : Int) : Decidable (img.In x y) := by
  unfold Gray.In; infer_instance

/-- Go's `(*image.Gray).PixOffset`: the index of pixel `(x, y)` in the buffer. -/
def Gray.PixOffset (img : Gray) (x y : Int) : Int := y * img.stride + x

/-- Go's `(*image.Gray).Set` with a gray colour of intensity `c`: a point outside the
rectangle is ignored. -/
def Gray.Set (img : Gray) (x y : Int) (c : Nat) : Gray :=
  if img.In x y then { img with pix := img.pix.set (img.PixOffset x y).toNat c } else img

/-- Go's `(*image.Gray).GrayAt`: the stored intensity, `0` outside the rectangle. -/
def Gray.GrayAt (img : Gray) (x y : Int) : Nat :=
  if img.In x y then img.pix.getD (img.PixOffset x y).toNat 0 else 0

/-- The body of the loop over the bit positions `y` of one column in `WriteImage`. -/
def drawBit (height : Nat) (x : Nat) (number : Int) (img : Gray) (y : Nat) : Gray :=
  if Bit number y = 1 then img.Set x ((height : Int) - y - 1) 255
  else img.Set x ((height : Int) - y - 1) 0

/-- The loop `for y := 0; y <= number.BitLen(); y++` of `WriteImage` for column `x`. -/
def drawColumn (height : Nat) (img : Gray) (column : Nat × Int) : Gray :=
  (List.range (BitLen column.2 + 1)).foldl (drawBit height column.1 column.2) img

/-- The part of `WriteImage` that builds the image handed to `png.Encode`.  The index
`(len(totem.row)-1)/2` is computed on Go's `int` (division truncates towards zero); on an
empty row it is `0`, the index expression panics and no image is built (`none`). -/
def Totem.WriteImage (totem : Totem) : Option Gray :=
  match totem.row[(((totem.row.length : Int) - 1).tdiv 2).toNat]? with
  | none => none
  | some middle =>
    let width := totem.row.length
    let height := BitLen middle
    let img := NewGray width height
    some (totem.row.enum.foldl (drawColumn height) img)

/-- The text `fmt.Sprint` prints for a `*big.Int`: its decimal digits, with a leading `-`
for a negative value. -/
def decimal (value : Int) : String := toString value

/-- Method `String`: `r` starts empty and `r += fmt.Sprint(" ", value)` runs over the row
in order.  `fmt.Sprint` adds no space between its two operands because the first one is a
string, so each round appends one space and the decimal text of the value. -/
def Totem.String (totem : Totem) : String :=
  totem.row.foldl (fun r value => r ++ (" " ++ decimal value)) ""

/-- The ways a Go call can fail: a panic raised by the runtime itself (such as an index
out of range), or an error condition that the program's own code raises under a name. -/
inductive Failure where
  | runtimePanic
  | errorCondition (name : String)
deriving DecidableEq

/-- How a call of `WriteImage` ends, as far as the image is concerned: with the image it
has built, or with a failure. -/
inductive Outcome where
  | built (img : Gray)
  | failed (failure : Failure)
deriving DecidableEq

/-- The outcome of `WriteImage`.  The method checks nothing itself and raises no error
condition; the only statement that can fail before the image is built is the index
expression `totem.row[(len(totem.row)-1)/2]`, by a runtime panic. -/
def Totem.WriteImageOutcome (totem : Totem) : Outcome :=
  match totem.WriteImage with
  | some img => .built img
  | none => .failed .runtimePanic

/-! ### Vocabulary of the properties -/

/-- The values of Go's `int64`: `-2 ^ 63 ≤ z ≤ 2 ^ 63 - 1`. -/
def IsInt64 (z : Int) : Prop :=
  -9223372036854775808 ≤ z ∧ z ≤ 9223372036854775807

instance (z : Int) : Decidable (IsInt64 z) := by
  unfold IsInt64; infer_instance

/-- The lengths a Go slice can have on a 64-bit platform: `len` is an `int`. -/
def FitsSlice (row : List Int) : Prop := row.length ≤ 9223372036854775807

instance (row : List Int) : Decidable (FitsSlice row) := by
  unfold FitsSlice; infer_instance

/-- The boundary value of a growth call: `a` for `GrowBeing(a, b)`, otherwise `1`. -/
def Growth.boundary : Growth → Int
  | .Being a _ => a
  | _ => 1

/-- The value the loop body stores at index `x`. -/
def growEntry (row : List Int) (cL cR : Int → Int) (x : Nat) : Int :=
  row.getD (x - 1) 0 * cL x + row.getD x 0 * cR x

/-- Row `k` of Pascal's triangle, as integers: `binomial(k, 0), ..., binomial(k, k)`. -/
def pascalRow (k : Nat) : List Int :=
  (List.range (k + 1)).map (fun x => (Nat.choose k x : Int))

/-- The parameters of a growth call are non-negative. -/
def Growth.NonNegParams : Growth → Prop
  | .Rocket mod => 0 ≤ mod
  | .Body mod => 0 ≤ mod
  | .Being a b => 0 ≤ a ∧ 0 ≤ b
  | _ => True

instance (g : Growth) : Decidable g.NonNegParams := by
  cases g <;> unfold Growth.NonNegParams <;> infer_instance

/-- The `int64` coefficients of a `GrowRocket(mod)` call on this totem do not exceed
`2^63 - 1`: the largest one is `count - 1 + mod`.  Other calls have no such condition. -/
def Totem.RocketInRange (totem : Totem) : Growth → Prop
  | .Rocket mod => totem.count - 1 + mod ≤ 9223372036854775807
  | _ => True

instance (totem : Totem) (g : Growth) : Decidable (totem.RocketInRange g) := by
  cases g <;> unfold Totem.RocketInRange <;> infer_instance

/-- Every `GrowRocket` call of the sequence is in range at the moment it is made. -/
def Totem.RocketsInRange : Totem → List Growth → Prop
  | _, [] => True
  | totem, g :: gs => totem.RocketInRange g ∧ (totem.Grow g).RocketsInRange gs

instance decRocketsInRange :
    (totem : Totem) → (calls : List Growth) → Decidable (totem.RocketsInRange calls)
  | _, [] => isTrue trivial
  | totem, g :: gs =>
    have := decRocketsInRange (totem.Grow g) gs
    inferInstanceAs (Decidable (totem.RocketInRange g ∧ (totem.Grow g).RocketsInRange gs))

/-- The buffer of the image matches its rectangle: `Stride = width` and
`len(Pix) = width * height`, as `image.NewGray` builds it. -/
def Gray.WellFormed (img : Gray) : Prop :=
  img.stride = img.width ∧ img.pix.length = img.width * img.height

/-- The intensity `WriteImage` stores for bit `y` of `number`. -/
def bitPixel (number : Int) (y : Nat) : Nat := if Bit number y = 1 then 255 else 0

/-- A row reads the same in both directions: `row[x] == row[len(row)-1-x]` for every index
`0 ≤ x < len(row)`. -/
def Palindromic (row : List Int) : Prop :=
  ∀ x : Nat, x < row.length → row[x]? = row[row.length - 1 - x]?

instance (row : List Int) : Decidable (Palindromic row) := by
  unfold Palindromic; infer_instance

/-- The totem of the example driver after `k` rounds: `NewTotem()` followed by `k` calls
of `GrowMissile`. -/
def missileTotem (k : Nat) : Totem :=
  NewTotem.GrowAll (List.replicate k Growth.Missile)

/-- Euler's number triangle by its recurrence: the Eulerian number of order `n` at
position `m`, with `eulerian 1 0 = 1`, `eulerian (n + 1) 0 = 1` and
`eulerian (n + 1) (m + 1) = (n - m) * eulerian n m + (m + 2) * eulerian n (m + 1)`;
it is `0` outside the triangle. -/
def eulerian : Nat → Nat → Nat
  | 0, _ => 0
  | 1, 0 => 1
  | 1, _ + 1 => 0
  | _ + 2, 0 => 1
  | n + 2, m + 1 => (n + 1 - m) * eulerian (n + 1) m + (m + 2) * eulerian (n + 1) (m + 1)

/-- The entries of a row do not decrease up to the middle index `(len(row)-1)/2`. -/
def Rising (row : List Int) : Prop :=
  ∀ x : Nat, 1 ≤ x → x ≤ (row.length - 1) / 2 → row.getD (x - 1) 0 ≤ row.getD x 0

/-! ## Lemmas -/

theorem wrap64_eq_self {z : Int} (h : IsInt64 z) : wrap64 z = z := by
  unfold IsInt64 at h
  unfold wrap64
  omega

theorem wrap64_isInt64 (z : Int) : IsInt64 (wrap64 z) := by
  unfold IsInt64 wrap64
  omega

theorem wrap64_add_wrap64 (a b : Int) : wrap64 (wrap64 a + b) = wrap64 (a + b) := by
  unfold wrap64
  omega

theorem length_growBody (row : List Int) (cL cR : Int → Int) (next : List Int) (x : Nat) :
    (growBody row cL cR next x).length = next.length := by
  simp [growBody]

theorem length_foldl_growBody (row : List Int) (cL cR : Int → Int) (xs : List Nat)
    (next : List Int) : (xs.foldl (growBody row cL cR) next).length = next.length := by
  induction xs generalizing next with
  | nil => rfl
  | cons x xs ih => rw [List.foldl_cons, ih, length_growBody]

theorem length_growLoop (row : List Int) (cL cR : Int → Int) (next : List Int) :
    (growLoop row cL cR next).length = next.length :=
  length_foldl_growBody row cL cR _ next

/-- Running the loop body over `s, s+1, ..., s+m-1` writes `growEntry` at exactly those
indices that lie inside `next` and leaves every other entry alone. -/
theorem getElem?_foldl_growBody (row : List Int) (cL cR : Int → Int) (m : Nat) :
    ∀ (s : Nat) (next : List Int) (i : Nat),
      ((List.range' s m).foldl (growBody row cL cR) next)[i]? =
        if s ≤ i ∧ i < s + m ∧ i < next.length then some (growEntry row cL cR i)
        else next[i]? := by
  induction m with
  | zero =>
    intro s next i
    have : ¬ (s ≤ i ∧ i < s + 0 ∧ i < next.length) := by omega
    rw [if_neg this]
    rfl
  | succ m ih =>
    intro s next i
    rw [List.range'_succ, List.foldl_cons, ih (s + 1) (growBody row cL cR next s) i,
      length_growBody]
    by_cases h1 : s + 1 ≤ i ∧ i < s + 1 + m ∧ i < next.length
    · have h2 : s ≤ i ∧ i < s + (m + 1) ∧ i < next.length := by omega
      rw [if_pos h1, if_pos h2]
    · rw [if_neg h1]
      unfold growBody
      rw [List.getElem?_set]
      by_cases hs : s = i
      · subst hs
        by_cases hl : s < next.length
        · have h2 : s ≤ s ∧ s < s + (m + 1) ∧ s < next.length := by omega
          simp [hl, h2, growEntry]
        · have h2 : ¬ (s ≤ s ∧ s < s + (m + 1) ∧ s < next.length) := by omega
          have h3 : next[s]? = none := List.getElem?_eq_none (by omega)
          simp [hl, h2, h3]
      · have h2 : ¬ (s ≤ i ∧ i < s + (m + 1) ∧ i < next.length) := by omega
        simp [hs, h2]

/-- The row after one growth call has one more element than the row before it. -/
theorem length_grow_row (boundary : Int) (cL cR : Int → Int) (totem : Totem) :
    (grow boundary cL cR totem).row.length = totem.row.length + 1 := by
  simp [grow, length_growLoop]

/-- The row after one growth call, index by index: the boundary value at both ends and
`growEntry` at every index in between. -/
theorem getElem?_grow_row (boundary : Int) (cL cR : Int → Int) (totem : Totem) (i : Nat) :
    (grow boundary cL cR totem).row[i]? =
      if i = 0 ∨ i = totem.row.length then some boundary
      else if i < totem.row.length then some (growEntry totem.row cL cR i)
      else none := by
  unfold grow
  simp only [List.getElem?_set, length_growLoop, List.length_set, List.length_replicate,
    Nat.add_sub_cancel]
  unfold growLoop
  rw [getElem?_foldl_growBody]
  simp only [List.length_set, List.length_replicate, List.getElem?_set]
  by_cases h0 : i = 0
  · subst h0
    by_cases hn : totem.row.length = 0
    · simp [hn]
    · have : ¬ (1 ≤ 0 ∧ 0 < 1 + (totem.row.length - 1) ∧ 0 < totem.row.length + 1) := by
        omega
      simp [hn, this]
  · by_cases hn : i = totem.row.length
    · subst hn
      simp
    · by_cases hlt : i < totem.row.length
      · have h1 : 1 ≤ i ∧ i < 1 + (totem.row.length - 1) ∧ i < totem.row.length + 1 := by
          omega
        have h2 : ¬ (totem.row.length = i) := fun h => hn h.symm
        simp [h0, hn, hlt, h1, h2]
      · have h1 : ¬ (1 ≤ i ∧ i < 1 + (totem.row.length - 1) ∧ i < totem.row.length + 1) := by
          omega
        have h2 : ¬ (totem.row.length = i) := fun h => hn h.symm
        have h3 : ¬ (0 = i) := fun h => h0 h.symm
        have h4 : ¬ (i < totem.row.length + 1) := by omega
        simp [h0, hn, hlt, h1, h2, h3, h4]
        omega

theorem count_grow (boundary : Int) (cL cR : Int → Int) (totem : Totem) :
    (grow boundary cL cR totem).count = add64 totem.count 1 := rfl

theorem length_Grow_row (totem : Totem) (g : Growth) :
    (totem.Grow g).row.length = totem.row.length + 1 := by
  cases g <;> exact length_grow_row _ _ _ _

theorem count_Grow (totem : Totem) (g : Growth) :
    (totem.Grow g).count = add64 totem.count 1 := by
  cases g <;> rfl

theorem GrowAll_concat (totem : Totem) (calls : List Growth) (g : Growth) :
    totem.GrowAll (calls ++ [g]) = (totem.GrowAll calls).Grow g := by
  simp [Totem.GrowAll, List.foldl_append]

theorem length_GrowAll_row (totem : Totem) (calls : List Growth) :
    (totem.GrowAll calls).row.length = totem.row.length + calls.length := by
  induction calls using List.reverseRecOn with
  | nil => rfl
  | append_singleton calls g ih =>
    rw [GrowAll_concat, length_Grow_row, ih, List.length_append, List.length_singleton]
    omega

theorem NewTotem_eq : NewTotem = { count := 1, row := [1] } := by decide

/-- After `calls.length` growth calls on a new totem the counter is `calls.length + 1`,
as long as that number is an `int64`. -/
theorem count_GrowAll_NewTotem (calls : List Growth)
    (hfit : (calls.length : Int) + 1 ≤ 9223372036854775807) :
    (NewTotem.GrowAll calls).count = (calls.length : Int) + 1 := by
  induction calls using List.reverseRecOn with
  | nil => rfl
  | append_singleton calls g ih =>
    rw [List.length_append, List.length_singleton, Nat.cast_add, Nat.cast_one] at hfit
    rw [GrowAll_concat, count_Grow, ih (by omega), List.length_append, List.length_singleton,
      Nat.cast_add, Nat.cast_one]
    exact wrap64_eq_self ⟨by omega, by omega⟩

/-- In a state reached from `NewTotem()` the counter lies between `1` and `2^63 - 1`. -/
theorem count_bounds_of_reachable (calls : List Growth)
    (hfit : FitsSlice (NewTotem.GrowAll calls).row) :
    1 ≤ (NewTotem.GrowAll calls).count ∧
      (NewTotem.GrowAll calls).count ≤ 9223372036854775807 := by
  have hlen := length_GrowAll_row NewTotem calls
  have h1 : NewTotem.row.length = 1 := rfl
  unfold FitsSlice at hfit
  rw [count_GrowAll_NewTotem calls (by omega)]
  omega

theorem getElem?_pascalRow (k i : Nat) :
    (pascalRow k)[i]? = if i < k + 1 then some (Nat.choose k i : Int) else none := by
  unfold pascalRow
  rw [List.getElem?_map]
  by_cases h : i < k + 1
  · rw [List.getElem?_range h, if_pos h]
    rfl
  · rw [List.getElem?_eq_none (by simpa using h), if_neg h]
    rfl

theorem getD_pascalRow (k i : Nat) (h : i < k + 1) :
    (pascalRow k).getD i 0 = (Nat.choose k i : Int) := by
  rw [List.getD_eq_getElem?_getD, getElem?_pascalRow, if_pos h]
  rfl

/-- Method `GrowFace` turns row `k` of Pascal's triangle into row `k + 1`, whatever the counter. -/
theorem GrowFace_row_pascalRow (totem : Totem) (k : Nat) (h : totem.row = pascalRow k) :
    totem.GrowFace.row = pascalRow (k + 1) := by
  have hlen : totem.row.length = k + 1 := by simp [h, pascalRow]
  apply List.ext_getElem?
  intro i
  unfold Totem.GrowFace
  rw [getElem?_grow_row, getElem?_pascalRow, hlen]
  by_cases h0 : i = 0
  · subst h0
    simp
  · by_cases hk : i = k + 1
    · subst hk
      simp
    · by_cases hlt : i < k + 1
      · have h1 : ¬ (i = 0 ∨ i = k + 1) := by omega
        have h2 : i < k + 1 + 1 := by omega
        rw [if_neg h1, if_pos hlt, if_pos h2]
        obtain ⟨j, rfl⟩ : ∃ j, i = j + 1 := ⟨i - 1, by omega⟩
        unfold growEntry
        rw [h, Nat.add_sub_cancel, getD_pascalRow k j (by omega), getD_pascalRow k (j + 1) hlt,
          Nat.choose_succ_succ]
        push_cast
        rw [mul_one, mul_one]
      · have h1 : ¬ (i = 0 ∨ i = k + 1) := by omega
        have h2 : ¬ (i < k + 1 + 1) := by omega
        rw [if_neg h1, if_neg hlt, if_neg h2]

theorem GrowAll_Face_row (k : Nat) :
    (NewTotem.GrowAll (List.replicate k Growth.Face)).row = pascalRow k := by
  induction k with
  | zero => rfl
  | succ k ih =>
    rw [List.replicate_succ', GrowAll_concat]
    exact GrowFace_row_pascalRow _ k ih

theorem getD_nonneg (row : List Int) (h : ∀ v ∈ row, 0 ≤ v) (i : Nat) : 0 ≤ row.getD i 0 := by
  by_cases hi : i < row.length
  · rw [List.getD_eq_getElem row 0 hi]
    exact h _ (List.getElem_mem hi)
  · rw [List.getD_eq_default row 0 (by omega)]

/-- One growth call keeps the row non-negative when the boundary value and the
coefficients used at the interior indices are non-negative. -/
theorem grow_row_nonneg (boundary : Int) (cL cR : Int → Int) (totem : Totem)
    (hb : 0 ≤ boundary) (hrow : ∀ v ∈ totem.row, 0 ≤ v)
    (hc : ∀ x : Nat, 1 ≤ x → x < totem.row.length → 0 ≤ cL x ∧ 0 ≤ cR x) :
    ∀ v ∈ (grow boundary cL cR totem).row, 0 ≤ v := by
  intro v hv
  obtain ⟨i, hi⟩ := List.getElem?_of_mem hv
  rw [getElem?_grow_row] at hi
  by_cases h0 : i = 0 ∨ i = totem.row.length
  · rw [if_pos h0] at hi
    cases hi
    exact hb
  · rw [if_neg h0] at hi
    by_cases hlt : i < totem.row.length
    · rw [if_pos hlt] at hi
      cases hi
      obtain ⟨hl, hr⟩ := hc i (by omega) hlt
      unfold growEntry
      exact add_nonneg (mul_nonneg (getD_nonneg _ hrow _) hl)
        (mul_nonneg (getD_nonneg _ hrow _) hr)
    · rw [if_neg hlt] at hi
      cases hi

/-- One admissible growth call keeps `count = len(row)` and the row non-negative. -/
theorem Grow_keeps_nonneg (totem : Totem) (g : Growth)
    (hcount : totem.count = totem.row.length)
    (hfit : (totem.row.length : Int) + 1 ≤ 9223372036854775807)
    (hrow : ∀ v ∈ totem.row, 0 ≤ v) (hg : g.NonNegParams) (hr : totem.RocketInRange g) :
    (totem.Grow g).count = (totem.Grow g).row.length ∧ ∀ v ∈ (totem.Grow g).row, 0 ≤ v := by
  constructor
  · rw [count_Grow, length_Grow_row, hcount]
    unfold add64
    rw [wrap64_eq_self ⟨by omega, by omega⟩]
    push_cast
    rfl
  · cases g with
    | Missile =>
      refine grow_row_nonneg _ _ _ _ (by decide) hrow ?_
      intro x h1 hx
      simp only [add64, sub64]
      rw [wrap64_add_wrap64, wrap64_eq_self ⟨by omega, by omega⟩,
        wrap64_eq_self ⟨by omega, by omega⟩]
      omega
    | Arrow =>
      refine grow_row_nonneg _ _ _ _ (by decide) hrow ?_
      intro x _ _
      omega
    | Face =>
      refine grow_row_nonneg _ _ _ _ (by decide) hrow ?_
      intro x _ _
      omega
    | Rocket mod =>
      unfold Growth.NonNegParams at hg
      unfold Totem.RocketInRange at hr
      refine grow_row_nonneg _ _ _ _ (by decide) hrow ?_
      intro x h1 hx
      simp only [add64, sub64]
      rw [wrap64_add_wrap64, wrap64_eq_self ⟨by omega, by omega⟩,
        wrap64_eq_self ⟨by omega, by omega⟩]
      omega
    | Body mod =>
      unfold Growth.NonNegParams at hg
      refine grow_row_nonneg _ _ _ _ (by decide) hrow ?_
      intro x _ _
      exact ⟨hg, hg⟩
    | Being a b =>
      unfold Growth.NonNegParams at hg
      refine grow_row_nonneg _ _ _ _ hg.1 hrow ?_
      intro x _ _
      exact ⟨hg.2, hg.2⟩

theorem GrowAll_keeps_nonneg (calls : List Growth) :
    ∀ totem : Totem, totem.count = totem.row.length →
      (totem.row.length : Int) + calls.length ≤ 9223372036854775807 →
      (∀ v ∈ totem.row, 0 ≤ v) → (∀ g ∈ calls, g.NonNegParams) →
      totem.RocketsInRange calls →
      ∀ v ∈ (totem.GrowAll calls).row, 0 ≤ v := by
  induction calls with
  | nil =>
    intro totem _ _ hrow _ _
    exact hrow
  | cons g gs ih =>
    intro totem hcount hfit hrow hnn hr
    rw [List.length_cons, Nat.cast_add, Nat.cast_one] at hfit
    obtain ⟨hc, hn⟩ := Grow_keeps_nonneg totem g hcount (by omega) hrow
      (hnn g (List.mem_cons_self g gs)) hr.1
    refine ih (totem.Grow g) hc ?_ hn (fun g' hg' => hnn g' (List.mem_cons_of_mem g hg')) hr.2
    rw [length_Grow_row]
    push_cast
    omega

theorem lt_two_pow_bitLenAux (fuel : Nat) :
    ∀ n : Nat, n ≤ fuel → n < 2 ^ bitLenAux fuel n := by
  induction fuel with
  | zero =>
    intro n hn
    have : n = 0 := by omega
    subst this
    simp [bitLenAux]
  | succ fuel ih =>
    intro n hn
    unfold bitLenAux
    by_cases h0 : n = 0
    · simp [h0]
    · rw [if_neg h0, pow_succ]
      have := ih (n / 2) (by omega)
      omega

theorem two_pow_bitLenAux_le (fuel : Nat) :
    ∀ n : Nat, n ≤ fuel → n ≠ 0 → 2 ^ (bitLenAux fuel n - 1) ≤ n := by
  induction fuel with
  | zero =>
    intro n hn h0
    omega
  | succ fuel ih =>
    intro n hn h0
    unfold bitLenAux
    rw [if_neg h0, Nat.add_sub_cancel]
    by_cases h1 : n / 2 = 0
    · have : bitLenAux fuel (n / 2) = 0 := by
        rw [h1]
        cases fuel <;> simp [bitLenAux]
      rw [this]
      simp
      omega
    · have := ih (n / 2) (by omega) h1
      have hpos : 0 < bitLenAux fuel (n / 2) := by
        cases fuel with
        | zero => omega
        | succ f => unfold bitLenAux; rw [if_neg h1]; omega
      obtain ⟨b, hb⟩ : ∃ b, bitLenAux fuel (n / 2) = b + 1 :=
        ⟨_, (Nat.succ_pred_eq_of_pos hpos).symm⟩
      rw [hb] at this ⊢
      rw [Nat.add_sub_cancel] at this
      rw [pow_succ]
      omega

/-- The function `BitLen` is the binary size of the absolute value. -/
theorem BitLen_eq_size (z : Int) : BitLen z = Nat.size z.natAbs := by
  unfold BitLen
  apply le_antisymm
  · by_cases h0 : z.natAbs = 0
    · rw [h0]; simp [bitLenAux]
    · have := two_pow_bitLenAux_le z.natAbs z.natAbs le_rfl h0
      have := Nat.lt_size.2 this
      omega
  · exact Nat.size_le.2 (lt_two_pow_bitLenAux _ _ le_rfl)

/-- A non-negative integer has no set bit at or above its bit length. -/
theorem Bit_eq_zero_of_BitLen_le (v : Int) (hv : 0 ≤ v) (y : Nat) (hy : BitLen v ≤ y) :
    Bit v y = 0 := by
  obtain ⟨m, rfl⟩ := Int.eq_ofNat_of_zero_le hv
  have h1 : m < 2 ^ BitLen (m : Int) := by
    have := lt_two_pow_bitLenAux m m le_rfl
    simpa [BitLen] using this
  have h2 : m < 2 ^ y := lt_of_lt_of_le h1 (Nat.pow_le_pow_right (by decide) hy)
  have h3 : Nat.testBit m y = false := Nat.testBit_eq_false_of_lt h2
  have h4 : Int.testBit (m : Int) y = Nat.testBit m y := rfl
  unfold Bit
  rw [h4, h3]
  rfl

theorem width_Set (img : Gray) (x y : Int) (c : Nat) : (img.Set x y c).width = img.width := by
  unfold Gray.Set
  split <;> rfl

theorem height_Set (img : Gray) (x y : Int) (c : Nat) :
    (img.Set x y c).height = img.height := by
  unfold Gray.Set
  split <;> rfl

theorem WellFormed_Set (img : Gray) (x y : Int) (c : Nat) (h : img.WellFormed) :
    (img.Set x y c).WellFormed := by
  unfold Gray.Set
  split
  · exact ⟨h.1, by simpa using h.2⟩
  · exact h

theorem WellFormed_NewGray (width height : Nat) : (NewGray width height).WellFormed :=
  ⟨rfl, by simp [NewGray]⟩

theorem GrayAt_NewGray (width height : Nat) (x y : Int) :
    (NewGray width height).GrayAt x y = 0 := by
  unfold Gray.GrayAt
  split
  · rw [List.getD_eq_getElem?_getD]
    simp only [NewGray, List.getElem?_replicate]
    split <;> rfl
  · rfl

theorem offset_lt (w h a b : Nat) (ha : a < w) (hb : b < h) : b * w + a < w * h := by
  have h1 : (b + 1) * w ≤ h * w := Nat.mul_le_mul_right w hb
  rw [Nat.mul_comm w h]
  rw [Nat.add_mul, Nat.one_mul] at h1
  omega

theorem offset_inj (w a b a' b' : Nat) (ha : a < w) (ha' : a' < w)
    (h : b * w + a = b' * w + a') : a = a' ∧ b = b' := by
  have hm : (b * w + a) % w = (b' * w + a') % w := by rw [h]
  rw [Nat.mul_add_mod_of_lt ha, Nat.mul_add_mod_of_lt ha'] at hm
  refine ⟨hm, ?_⟩
  subst hm
  have hw : 0 < w := by omega
  have h2 : b * w = b' * w := by omega
  exact Nat.eq_of_mul_eq_mul_right hw h2

/-- Reading a pixel after one `Set`: the written value at the written point, the old value
everywhere else. -/
theorem GrayAt_Set (img : Gray) (hwf : img.WellFormed) (x' y' : Int) (c : Nat) (x y : Int) :
    (img.Set x' y' c).GrayAt x y =
      if x = x' ∧ y = y' ∧ img.In x y then c else img.GrayAt x y := by
  obtain ⟨hs, hl⟩ := hwf
  unfold Gray.Set
  by_cases hin' : img.In x' y'
  · rw [if_pos hin']
    unfold Gray.GrayAt
    by_cases hin : img.In x y
    · have hin2 : Gray.In { img with pix := img.pix.set (img.PixOffset x' y').toNat c } x y := hin
      rw [if_pos hin2, if_pos hin]
      have hin0 := hin
      obtain ⟨hx0, hxw, hy0, hyh⟩ := hin
      obtain ⟨hx0', hxw', hy0', hyh'⟩ := hin'
      lift x to Nat using hx0
      lift y to Nat using hy0
      lift x' to Nat using hx0'
      lift y' to Nat using hy0'
      have e1 : (img.PixOffset x y).toNat = y * img.width + x := by
        unfold Gray.PixOffset
        rw [hs]
        have : ((y : Int) * (img.width : Int) + (x : Int)) = ((y * img.width + x : Nat) : Int) := by
          push_cast; rfl
        rw [this, Int.toNat_ofNat]
      have e2 : (img.PixOffset x' y').toNat = y' * img.width + x' := by
        unfold Gray.PixOffset
        rw [hs]
        have : ((y' : Int) * (img.width : Int) + (x' : Int)) =
            ((y' * img.width + x' : Nat) : Int) := by
          push_cast; rfl
        rw [this, Int.toNat_ofNat]
      have hxw2 : x < img.width := by exact_mod_cast hxw
      have hxw2' : x' < img.width := by exact_mod_cast hxw'
      have hyh2 : y < img.height := by exact_mod_cast hyh
      have hyh2' : y' < img.height := by exact_mod_cast hyh'
      have hlt' : y' * img.width + x' < img.pix.length := by
        rw [hl]; exact offset_lt _ _ _ _ hxw2' hyh2'
      show (img.pix.set (img.PixOffset (x' : Int) (y' : Int)).toNat c).getD
          (img.PixOffset (x : Int) (y : Int)).toNat 0 = _
      rw [e1, e2, List.getD_eq_getElem?_getD, List.getElem?_set]
      by_cases heq : y' * img.width + x' = y * img.width + x
      · obtain ⟨hxx, hyy⟩ := offset_inj _ _ _ _ _ hxw2' hxw2 heq
        subst hxx hyy
        rw [if_pos rfl, if_pos hlt', if_pos ⟨rfl, rfl, hin0⟩]
        rfl
      · rw [if_neg heq]
        have hne : ¬ ((x : Int) = x' ∧ (y : Int) = y' ∧ img.In x y) := by
          rintro ⟨hxx, hyy, -⟩
          apply heq
          have hx2 : x = x' := by exact_mod_cast hxx
          have hy2 : y = y' := by exact_mod_cast hyy
          rw [hx2, hy2]
        rw [if_neg hne, List.getD_eq_getElem?_getD]
    · have hin2 : ¬ Gray.In { img with pix := img.pix.set (img.PixOffset x' y').toNat c } x y :=
        hin
      rw [if_neg hin2, if_neg hin]
      have : ¬ (x = x' ∧ y = y' ∧ img.In x y) := fun h => hin h.2.2
      rw [if_neg this]
  · rw [if_neg hin']
    have : ¬ (x = x' ∧ y = y' ∧ img.In x y) := by
      rintro ⟨hx, hy, hin⟩
      subst hx hy
      exact hin' hin
    rw [if_neg this]

theorem drawBit_eq (height x : Nat) (number : Int) (img : Gray) (y : Nat) :
    drawBit height x number img y = img.Set x ((height : Int) - y - 1) (bitPixel number y) := by
  unfold drawBit bitPixel
  split <;> rfl

theorem foldl_drawBit_shape (height x : Nat) (number : Int) (ys : List Nat) :
    ∀ img : Gray, img.WellFormed →
      (ys.foldl (drawBit height x number) img).WellFormed ∧
      (ys.foldl (drawBit height x number) img).width = img.width ∧
      (ys.foldl (drawBit height x number) img).height = img.height := by
  induction ys with
  | nil => exact fun img h => ⟨h, rfl, rfl⟩
  | cons y ys ih =>
    intro img h
    rw [List.foldl_cons, drawBit_eq]
    obtain ⟨h1, h2, h3⟩ := ih (img.Set x ((height : Int) - y - 1) (bitPixel number y))
      (WellFormed_Set _ _ _ _ h)
    exact ⟨h1, by rw [h2, width_Set], by rw [h3, height_Set]⟩

theorem foldl_drawColumn_shape (height : Nat) (columns : List (Nat × Int)) :
    ∀ img : Gray, img.WellFormed →
      (columns.foldl (drawColumn height) img).WellFormed ∧
      (columns.foldl (drawColumn height) img).width = img.width ∧
      (columns.foldl (drawColumn height) img).height = img.height := by
  induction columns with
  | nil => exact fun img h => ⟨h, rfl, rfl⟩
  | cons c cs ih =>
    intro img h
    rw [List.foldl_cons]
    obtain ⟨g1, g2, g3⟩ := foldl_drawBit_shape height c.1 c.2 (List.range (BitLen c.2 + 1)) img h
    obtain ⟨h1, h2, h3⟩ := ih (drawColumn height img c) g1
    exact ⟨h1, by rw [h2]; exact g2, by rw [h3]; exact g3⟩

/-- Reading pixel `(x0, height - y0 - 1)` after the bit loop of column `x` over the bit
positions `ys`: the pixel of bit `y0` if the column is `x0` and `y0` was visited, the old
value otherwise. -/
theorem GrayAt_foldl_drawBit (height x : Nat) (number : Int) (ys : List Nat) :
    ∀ img : Gray, img.WellFormed → img.height = height →
      ∀ x0 y0 : Nat, x0 < img.width → y0 < height →
        (ys.foldl (drawBit height x number) img).GrayAt x0 ((height : Int) - y0 - 1) =
          if x0 = x ∧ y0 ∈ ys then bitPixel number y0
          else img.GrayAt x0 ((height : Int) - y0 - 1) := by
  induction ys with
  | nil =>
    intro img _ _ x0 y0 _ _
    simp
  | cons y ys ih =>
    intro img hwf hh x0 y0 hx0 hy0
    rw [List.foldl_cons, drawBit_eq]
    have hwf' := WellFormed_Set img x ((height : Int) - y - 1) (bitPixel number y) hwf
    rw [ih _ hwf' (by rw [height_Set, hh]) x0 y0 (by rw [width_Set]; exact hx0) hy0,
      GrayAt_Set img hwf]
    have hin : img.In x0 ((height : Int) - y0 - 1) := by
      unfold Gray.In
      rw [hh]
      refine ⟨by omega, by exact_mod_cast hx0, by omega, by omega⟩
    by_cases hx : x0 = x
    · subst hx
      by_cases hy : y0 = y
      · subst hy
        have c1 : x0 = x0 ∧ y0 ∈ y0 :: ys := ⟨rfl, List.mem_cons_self _ _⟩
        have c2 : ((x0 : Int) = x0 ∧ (height : Int) - y0 - 1 = (height : Int) - y0 - 1 ∧
            img.In x0 ((height : Int) - y0 - 1)) := ⟨rfl, rfl, hin⟩
        rw [if_pos c1, if_pos c2]
        split <;> rfl
      · have c2 : ¬ ((x0 : Int) = x0 ∧ (height : Int) - y0 - 1 = (height : Int) - y - 1 ∧
            img.In x0 ((height : Int) - y0 - 1)) := by
          rintro ⟨-, h, -⟩
          apply hy
          omega
        rw [if_neg c2]
        by_cases hm : y0 ∈ ys
        · rw [if_pos ⟨rfl, hm⟩, if_pos ⟨rfl, List.mem_cons_of_mem _ hm⟩]
        · have c3 : ¬ (x0 = x0 ∧ y0 ∈ y :: ys) := by
            rintro ⟨-, h⟩
            rcases List.mem_cons.1 h with h | h
            · exact hy h
            · exact hm h
          rw [if_neg (fun h => hm h.2), if_neg c3]
    · have c1 : ¬ (x0 = x ∧ y0 ∈ ys) := fun h => hx h.1
      have c2 : ¬ ((x0 : Int) = x ∧ (height : Int) - y0 - 1 = (height : Int) - y - 1 ∧
          img.In x0 ((height : Int) - y0 - 1)) := by
        rintro ⟨h, -, -⟩
        apply hx
        exact_mod_cast h
      have c3 : ¬ (x0 = x ∧ y0 ∈ y :: ys) := fun h => hx h.1
      rw [if_neg c1, if_neg c2, if_neg c3]

/-- Reading pixel `(x0, height - y0 - 1)` after the loop over the columns
`s, s+1, ...` holding `row`: if `x0` is one of them and bit position `y0` does not exceed
the bit length of its number, the pixel of that bit; otherwise the old value. -/
theorem GrayAt_foldl_drawColumn (height : Nat) (row : List Int) :
    ∀ (s : Nat) (img : Gray), img.WellFormed → img.height = height →
      ∀ x0 y0 : Nat, x0 < img.width → y0 < height →
        ((row.enumFrom s).foldl (drawColumn height) img).GrayAt x0 ((height : Int) - y0 - 1) =
          if s ≤ x0 ∧ x0 < s + row.length ∧ y0 ≤ BitLen (row.getD (x0 - s) 0) then
            bitPixel (row.getD (x0 - s) 0) y0
          else img.GrayAt x0 ((height : Int) - y0 - 1) := by
  induction row with
  | nil =>
    intro s img _ _ x0 y0 _ _
    have : ¬ (s ≤ x0 ∧ x0 < s + ([] : List Int).length ∧
        y0 ≤ BitLen (([] : List Int).getD (x0 - s) 0)) := by
      rintro ⟨h1, h2, -⟩
      simp at h2
      omega
    rw [if_neg this]
    rfl
  | cons a as ih =>
    intro s img hwf hh x0 y0 hx0 hy0
    rw [List.enumFrom_cons, List.foldl_cons]
    obtain ⟨g1, g2, g3⟩ :=
      foldl_drawBit_shape height s a (List.range (BitLen a + 1)) img hwf
    have hcol : (drawColumn height img (s, a)).GrayAt x0 ((height : Int) - y0 - 1) =
        if x0 = s ∧ y0 ∈ List.range (BitLen a + 1) then bitPixel a y0
        else img.GrayAt x0 ((height : Int) - y0 - 1) :=
      GrayAt_foldl_drawBit height s a _ img hwf hh x0 y0 hx0 hy0
    have g3' : (drawColumn height img (s, a)).height = height := g3.trans hh
    have g2' : (drawColumn height img (s, a)).width = img.width := g2
    rw [ih (s + 1) (drawColumn height img (s, a)) g1 g3' x0 y0 (by rw [g2']; exact hx0) hy0,
      hcol]
    rw [List.length_cons]
    by_cases hlt : x0 < s
    · have c1 : ¬ (s + 1 ≤ x0 ∧ x0 < s + 1 + as.length ∧
          y0 ≤ BitLen (as.getD (x0 - (s + 1)) 0)) := by omega
      have c2 : ¬ (x0 = s ∧ y0 ∈ List.range (BitLen a + 1)) := by omega
      have c3 : ¬ (s ≤ x0 ∧ x0 < s + (as.length + 1) ∧
          y0 ≤ BitLen ((a :: as).getD (x0 - s) 0)) := by omega
      rw [if_neg c1, if_neg c2, if_neg c3]
    · by_cases heq : x0 = s
      · subst heq
        have c1 : ¬ (x0 + 1 ≤ x0 ∧ x0 < x0 + 1 + as.length ∧
            y0 ≤ BitLen (as.getD (x0 - (x0 + 1)) 0)) := by omega
        rw [if_neg c1, Nat.sub_self]
        have hd : (a :: as).getD 0 0 = a := rfl
        rw [hd]
        by_cases hy : y0 ≤ BitLen a
        · have c2 : x0 = x0 ∧ y0 ∈ List.range (BitLen a + 1) :=
            ⟨rfl, List.mem_range.2 (by omega)⟩
          have c3 : x0 ≤ x0 ∧ x0 < x0 + (as.length + 1) ∧ y0 ≤ BitLen a :=
            ⟨le_rfl, by omega, hy⟩
          rw [if_pos c2, if_pos c3]
        · have c2 : ¬ (x0 = x0 ∧ y0 ∈ List.range (BitLen a + 1)) := by
            rintro ⟨-, h⟩
            exact hy (by have := List.mem_range.1 h; omega)
          have c3 : ¬ (x0 ≤ x0 ∧ x0 < x0 + (as.length + 1) ∧ y0 ≤ BitLen a) :=
            fun h => hy h.2.2
          rw [if_neg c2, if_neg c3]
      · have c2 : ¬ (x0 = s ∧ y0 ∈ List.range (BitLen a + 1)) := fun h => heq h.1
        rw [if_neg c2]
        obtain ⟨d, hd⟩ : ∃ d, x0 - s = d + 1 := ⟨x0 - s - 1, by omega⟩
        have hd2 : x0 - (s + 1) = d := by omega
        have hg : (a :: as).getD (d + 1) 0 = as.getD d 0 := rfl
        rw [hd, hd2, hg]
        by_cases hc : s + 1 ≤ x0 ∧ x0 < s + 1 + as.length ∧ y0 ≤ BitLen (as.getD d 0)
        · have c3 : s ≤ x0 ∧ x0 < s + (as.length + 1) ∧ y0 ≤ BitLen (as.getD d 0) :=
            ⟨by omega, by omega, hc.2.2⟩
          rw [if_pos hc, if_pos c3]
        · have c3 : ¬ (s ≤ x0 ∧ x0 < s + (as.length + 1) ∧ y0 ≤ BitLen (as.getD d 0)) := by
            rintro ⟨h1, h2, h3⟩
            exact hc ⟨by omega, by omega, h3⟩
          rw [if_neg hc, if_neg c3]

theorem middle_index (n : Nat) (h : 1 ≤ n) :
    (((n : Int) - 1).tdiv 2).toNat = (n - 1) / 2 := by
  obtain ⟨m, rfl⟩ : ∃ m, n = m + 1 := ⟨n - 1, by omega⟩
  have : ((m + 1 : Nat) : Int) - 1 = (m : Int) := by push_cast; ring
  rw [this, Nat.add_sub_cancel]
  rfl

/-- On a non-empty row `WriteImage` builds an image: a new `width × height` image on which
the column loop has run. -/
theorem WriteImage_eq_some (totem : Totem) (hne : 1 ≤ totem.row.length) :
    totem.WriteImage =
      some (totem.row.enum.foldl
        (drawColumn (BitLen (totem.row.getD ((totem.row.length - 1) / 2) 0)))
        (NewGray totem.row.length
          (BitLen (totem.row.getD ((totem.row.length - 1) / 2) 0)))) := by
  unfold Totem.WriteImage
  rw [middle_index _ hne]
  have hlt : (totem.row.length - 1) / 2 < totem.row.length := by omega
  rw [List.getElem?_eq_getElem hlt, List.getD_eq_getElem _ _ hlt]

/-! ### The text of a row -/

theorem intercalate_go_append (s x : String) (l : List String) :
    ∀ acc : String, String.intercalate.go (x ++ acc) s l = x ++ String.intercalate.go acc s l := by
  induction l with
  | nil => intro acc; rfl
  | cons a as ih =>
    intro acc
    simp only [String.intercalate.go]
    rw [← ih, String.append_assoc, String.append_assoc, String.append_assoc]

theorem foldl_space_decimal (values : List Int) :
    ∀ acc : String, values.foldl (fun r value => r ++ (" " ++ decimal value)) acc =
      String.intercalate.go acc " " (values.map decimal) := by
  induction values with
  | nil => intro acc; rfl
  | cons v vs ih =>
    intro acc
    rw [List.foldl_cons, ih, List.map_cons]
    simp only [String.intercalate.go]
    rw [String.append_assoc]

/-! ### Symmetry of the rows -/

/-- The row after one growth call, read with a default: the same case distinction as
`getElem?_grow_row`. -/
theorem getD_grow_row (boundary : Int) (cL cR : Int → Int) (totem : Totem) (i : Nat) :
    (grow boundary cL cR totem).row.getD i 0 =
      if i = 0 ∨ i = totem.row.length then boundary
      else if i < totem.row.length then growEntry totem.row cL cR i
      else 0 := by
  rw [List.getD_eq_getElem?_getD, getElem?_grow_row]
  split
  · rfl
  · split <;> rfl

theorem Palindromic.getD_eq {row : List Int} (h : Palindromic row) (x : Nat)
    (hx : x < row.length) : row.getD x 0 = row.getD (row.length - 1 - x) 0 := by
  rw [List.getD_eq_getElem?_getD, List.getD_eq_getElem?_getD, h x hx]

/-- One growth call keeps the row palindromic when the two coefficient functions mirror
each other: `cL (n - x) = cR x` and `cR (n - x) = cL x` at every interior index `x`. -/
theorem grow_row_palindromic (boundary : Int) (cL cR : Int → Int) (totem : Totem)
    (hpal : Palindromic totem.row)
    (hsym : ∀ x : Nat, 1 ≤ x → x < totem.row.length →
      cL ((totem.row.length - x : Nat) : Int) = cR x ∧
      cR ((totem.row.length - x : Nat) : Int) = cL x) :
    Palindromic (grow boundary cL cR totem).row := by
  intro i hi
  rw [length_grow_row] at hi ⊢
  rw [Nat.add_sub_cancel, getElem?_grow_row, getElem?_grow_row]
  by_cases h0 : i = 0
  · subst h0
    simp
  · by_cases hn : i = totem.row.length
    · subst hn
      simp
    · have hlt : i < totem.row.length := by omega
      have c1 : ¬ (i = 0 ∨ i = totem.row.length) := by omega
      have c2 : ¬ (totem.row.length - i = 0 ∨ totem.row.length - i = totem.row.length) := by
        omega
      have c3 : totem.row.length - i < totem.row.length := by omega
      rw [if_neg c1, if_pos hlt, if_neg c2, if_pos c3]
      unfold growEntry
      obtain ⟨s1, s2⟩ := hsym i (by omega) hlt
      have p1 := hpal.getD_eq (totem.row.length - i - 1) (by omega)
      have p2 := hpal.getD_eq (totem.row.length - i) c3
      have e1 : totem.row.length - 1 - (totem.row.length - i - 1) = i := by omega
      have e2 : totem.row.length - 1 - (totem.row.length - i) = i - 1 := by omega
      rw [e1] at p1
      rw [e2] at p2
      rw [p1, p2, s1, s2, add_comm]

/-- One growth call of any family keeps `count = len(row)` (as `int64` values) and keeps
the row palindromic. -/
theorem Grow_keeps_palindromic (totem : Totem) (g : Growth)
    (hcount : totem.count = wrap64 totem.row.length) (hpal : Palindromic totem.row) :
    (totem.Grow g).count = wrap64 (totem.Grow g).row.length ∧
      Palindromic (totem.Grow g).row := by
  constructor
  · rw [count_Grow, length_Grow_row, hcount]
    unfold add64
    push_cast
    exact wrap64_add_wrap64 _ _
  · cases g with
    | Missile =>
      refine grow_row_palindromic _ _ _ _ hpal ?_
      intro x h1 hx
      simp only [add64, sub64]
      rw [hcount, Nat.cast_sub (le_of_lt hx)]
      unfold wrap64
      constructor <;> omega
    | Arrow => exact grow_row_palindromic _ _ _ _ hpal (fun _ _ _ => ⟨rfl, rfl⟩)
    | Face => exact grow_row_palindromic _ _ _ _ hpal (fun _ _ _ => ⟨rfl, rfl⟩)
    | Rocket mod =>
      refine grow_row_palindromic _ _ _ _ hpal ?_
      intro x h1 hx
      simp only [add64, sub64]
      rw [hcount, Nat.cast_sub (le_of_lt hx)]
      unfold wrap64
      constructor <;> omega
    | Body mod => exact grow_row_palindromic _ _ _ _ hpal (fun _ _ _ => ⟨rfl, rfl⟩)
    | Being a b => exact grow_row_palindromic _ _ _ _ hpal (fun _ _ _ => ⟨rfl, rfl⟩)

theorem GrowAll_keeps_palindromic (calls : List Growth) :
    (NewTotem.GrowAll calls).count = wrap64 (NewTotem.GrowAll calls).row.length ∧
      Palindromic (NewTotem.GrowAll calls).row := by
  induction calls using List.reverseRecOn with
  | nil => exact ⟨by decide, by decide⟩
  | append_singleton calls g ih =>
    rw [GrowAll_concat]
    exact Grow_keeps_palindromic _ g ih.1 ih.2

/-! ### Repeated `GrowMissile`: Euler's number triangle -/

theorem sum_eq_sum_range_getD (l : List Int) :
    l.sum = ∑ i ∈ Finset.range l.length, l.getD i 0 := by
  induction l with
  | nil => rfl
  | cons a as ih =>
    rw [List.sum_cons, List.length_cons, Finset.sum_range_succ', ih]
    have h0 : (a :: as).getD 0 0 = a := rfl
    have hs : ∀ i, (a :: as).getD (i + 1) 0 = as.getD i 0 := fun _ => rfl
    simp only [h0, hs]
    rw [add_comm]

/-- The row after `GrowMissile` on a state whose counter is the row length, in exact
integers: `next[i] = row[i-1] * (n - i + 1) + row[i] * (i + 1)` between the two ends. -/
theorem getD_GrowMissile_row (totem : Totem) (hcount : totem.count = totem.row.length)
    (hfit : (totem.row.length : Int) + 1 ≤ 9223372036854775807) (i : Nat) :
    totem.GrowMissile.row.getD i 0 =
      if i = 0 ∨ i = totem.row.length then 1
      else if i < totem.row.length then
        totem.row.getD (i - 1) 0 * ((totem.row.length : Int) - i + 1) +
          totem.row.getD i 0 * ((i : Int) + 1)
      else 0 := by
  unfold Totem.GrowMissile
  rw [getD_grow_row]
  by_cases h0 : i = 0 ∨ i = totem.row.length
  · rw [if_pos h0, if_pos h0]
  · rw [if_neg h0, if_neg h0]
    by_cases hlt : i < totem.row.length
    · rw [if_pos hlt, if_pos hlt]
      simp only [growEntry, add64, sub64]
      rw [wrap64_add_wrap64, hcount,
        wrap64_eq_self (z := (totem.row.length : Int) - i + 1) ⟨by omega, by omega⟩,
        wrap64_eq_self (z := 1 + (i : Int)) ⟨by omega, by omega⟩, add_comm (1 : Int) (i : Int)]
    · rw [if_neg hlt, if_neg hlt]

theorem length_missileTotem_row (k : Nat) : (missileTotem k).row.length = k + 1 := by
  unfold missileTotem
  rw [length_GrowAll_row, List.length_replicate]
  have h1 : NewTotem.row.length = 1 := rfl
  omega

theorem count_missileTotem (k : Nat) (hfit : (k : Int) + 1 ≤ 9223372036854775807) :
    (missileTotem k).count = (k : Int) + 1 := by
  unfold missileTotem
  have := count_GrowAll_NewTotem (List.replicate k Growth.Missile)
    (by rw [List.length_replicate]; exact hfit)
  rwa [List.length_replicate] at this

theorem missileTotem_succ (k : Nat) : missileTotem (k + 1) = (missileTotem k).GrowMissile := by
  unfold missileTotem
  rw [List.replicate_succ', GrowAll_concat]
  rfl

/-- Both ends of every row of the triangle are `1`. -/
theorem missileTotem_ends (k : Nat) :
    (missileTotem k).row.getD 0 0 = 1 ∧ (missileTotem k).row.getD k 0 = 1 := by
  cases k with
  | zero => exact ⟨rfl, rfl⟩
  | succ k =>
    rw [missileTotem_succ]
    unfold Totem.GrowMissile
    rw [getD_grow_row, getD_grow_row, length_missileTotem_row]
    exact ⟨if_pos (Or.inl rfl), if_pos (Or.inr rfl)⟩

/-- One `GrowMissile` call multiplies the sum of the row by `n + 1`, where `n` is the
length of the old row, when both ends of the old row are `1`. -/
theorem sum_GrowMissile_row (totem : Totem) (hcount : totem.count = totem.row.length)
    (hfit : (totem.row.length : Int) + 1 ≤ 9223372036854775807)
    (hpos : 1 ≤ totem.row.length) (hfirst : totem.row.getD 0 0 = 1)
    (hlast : totem.row.getD (totem.row.length - 1) 0 = 1) :
    totem.GrowMissile.row.sum = ((totem.row.length : Int) + 1) * totem.row.sum := by
  have hlen : totem.GrowMissile.row.length = totem.row.length + 1 := length_grow_row _ _ _ _
  rw [sum_eq_sum_range_getD, sum_eq_sum_range_getD, hlen, Finset.sum_range_succ']
  have hout : totem.row.getD totem.row.length 0 = 0 :=
    List.getD_eq_default _ _ (le_refl _)
  have hstep : ∀ i ∈ Finset.range totem.row.length,
      totem.GrowMissile.row.getD (i + 1) 0 =
        totem.row.getD i 0 * ((totem.row.length : Int) - i) +
          totem.row.getD (i + 1) 0 * ((i : Int) + 1 + 1) := by
    intro i hi
    have hi' : i < totem.row.length := Finset.mem_range.1 hi
    rw [getD_GrowMissile_row totem hcount hfit]
    have c0 : ¬ (i + 1 = 0) := by omega
    by_cases hn : i + 1 = totem.row.length
    · rw [if_pos (Or.inr hn)]
      have e : i = totem.row.length - 1 := by omega
      rw [hn, hout, e, hlast]
      have : ((totem.row.length - 1 : Nat) : Int) = (totem.row.length : Int) - 1 := by
        omega
      rw [this]
      ring
    · have c1 : ¬ (i + 1 = 0 ∨ i + 1 = totem.row.length) := by omega
      have c2 : i + 1 < totem.row.length := by omega
      rw [if_neg c1, if_pos c2, Nat.add_sub_cancel]
      push_cast
      ring
  rw [Finset.sum_congr rfl hstep, Finset.sum_add_distrib]
  have hshift : ∑ i ∈ Finset.range totem.row.length,
      totem.row.getD (i + 1) 0 * ((i : Int) + 1 + 1) =
      (∑ i ∈ Finset.range totem.row.length, totem.row.getD i 0 * ((i : Int) + 1)) - 1 := by
    have h1 := Finset.sum_range_succ'
      (fun i : Nat => totem.row.getD i 0 * ((i : Int) + 1)) totem.row.length
    have h2 := Finset.sum_range_succ
      (fun i : Nat => totem.row.getD i 0 * ((i : Int) + 1)) totem.row.length
    simp only [hout, hfirst, Nat.cast_zero, Nat.cast_add, Nat.cast_one, zero_mul, add_zero,
      zero_add, mul_one] at h1 h2
    rw [h2] at h1
    linarith
  have hzero : totem.GrowMissile.row.getD 0 0 = 1 := by
    rw [getD_GrowMissile_row totem hcount hfit]
    exact if_pos (Or.inl rfl)
  rw [hshift, hzero, Finset.mul_sum]
  have hcomb : ∀ i ∈ Finset.range totem.row.length,
      totem.row.getD i 0 * ((totem.row.length : Int) - i) +
        totem.row.getD i 0 * ((i : Int) + 1) =
      ((totem.row.length : Int) + 1) * totem.row.getD i 0 := by
    intro i _
    ring
  rw [← Finset.sum_congr rfl hcomb, Finset.sum_add_distrib]
  ring

theorem sum_missileTotem_row (k : Nat) (hfit : (k : Int) + 1 ≤ 9223372036854775807) :
    (missileTotem k).row.sum = ((k + 1).factorial : Int) := by
  induction k with
  | zero => rfl
  | succ k ih =>
    have hk : (k : Int) + 1 ≤ 9223372036854775807 := by push_cast at hfit; omega
    have hlen := length_missileTotem_row k
    have hcount : (missileTotem k).count = ((missileTotem k).row.length : Int) := by
      rw [count_missileTotem k hk, hlen]
      push_cast
      rfl
    obtain ⟨hfirst, hlast⟩ := missileTotem_ends k
    rw [missileTotem_succ, sum_GrowMissile_row _ hcount
      (by rw [hlen]; push_cast at hfit ⊢; omega) (by omega) hfirst
      (by rw [hlen, Nat.add_sub_cancel]; exact hlast), ih hk, hlen,
      Nat.factorial_succ (k + 1)]
    push_cast
    ring

/-- The rows that repeated `GrowMissile` builds are the rows of Euler's number triangle;
outside the row both sides are `0`. -/
theorem getD_missileTotem_row (k : Nat) (hfit : (k : Int) + 1 ≤ 9223372036854775807) :
    ∀ x : Nat, (missileTotem k).row.getD x 0 = (eulerian (k + 1) x : Int) := by
  induction k with
  | zero =>
    intro x
    cases x with
    | zero => rfl
    | succ x => rfl
  | succ k ih =>
    have hk : (k : Int) + 1 ≤ 9223372036854775807 := by push_cast at hfit; omega
    have hlen := length_missileTotem_row k
    have hcount : (missileTotem k).count = ((missileTotem k).row.length : Int) := by
      rw [count_missileTotem k hk, hlen]
      push_cast
      rfl
    intro x
    rw [missileTotem_succ, getD_GrowMissile_row _ hcount
      (by rw [hlen]; push_cast at hfit ⊢; omega), hlen]
    cases x with
    | zero =>
      rw [if_pos (Or.inl rfl)]
      rfl
    | succ m =>
      have e : eulerian (k + 1 + 1) (m + 1) =
          (k + 1 - m) * eulerian (k + 1) m + (m + 2) * eulerian (k + 1) (m + 1) := rfl
      rw [e, Nat.add_sub_cancel]
      have i1 := ih hk m
      have i2 := ih hk (m + 1)
      by_cases hn : m + 1 = k + 1
      · have hm : m = k := by omega
        subst hm
        rw [if_pos (Or.inr rfl)]
        have z : (missileTotem m).row.getD (m + 1) 0 = 0 :=
          List.getD_eq_default _ _ (by rw [hlen])
        have o := (missileTotem_ends m).2
        rw [z] at i2
        rw [o] at i1
        have i1' : eulerian (m + 1) m = 1 := by exact_mod_cast i1.symm
        have i2' : eulerian (m + 1) (m + 1) = 0 := by exact_mod_cast i2.symm
        rw [i1', i2']
        simp
      · have c1 : ¬ (m + 1 = 0 ∨ m + 1 = k + 1) := by omega
        rw [if_neg c1]
        by_cases hlt : m + 1 < k + 1
        · rw [if_pos hlt, i1, i2]
          have : ((k + 1 - m : Nat) : Int) = (k : Int) + 1 - m := by omega
          push_cast
          rw [this]
          ring
        · rw [if_neg hlt]
          have z1 : (missileTotem k).row.getD m 0 = 0 :=
            List.getD_eq_default _ _ (by rw [hlen]; omega)
          have z2 : (missileTotem k).row.getD (m + 1) 0 = 0 :=
            List.getD_eq_default _ _ (by rw [hlen]; omega)
          rw [z1] at i1
          rw [z2] at i2
          have i1' : eulerian (k + 1) m = 0 := by exact_mod_cast i1.symm
          have i2' : eulerian (k + 1) (m + 1) = 0 := by exact_mod_cast i2.symm
          rw [i1', i2']
          simp

/-! ### The middle of a row of Euler's triangle is a maximum -/

/-- One `GrowMissile` call on a palindromic, non-negative row that rises to its middle
gives a row that rises to its middle. -/
theorem GrowMissile_row_rising (totem : Totem) (hcount : totem.count = totem.row.length)
    (hfit : (totem.row.length : Int) + 1 ≤ 9223372036854775807)
    (hfirst : totem.row.getD 0 0 = 1) (hnn : ∀ i : Nat, 0 ≤ totem.row.getD i 0)
    (hpal : Palindromic totem.row) (hr : Rising totem.row) :
    Rising totem.GrowMissile.row := by
  intro x h1 hx
  have hlen : totem.GrowMissile.row.length = totem.row.length + 1 := length_grow_row _ _ _ _
  rw [hlen, Nat.add_sub_cancel] at hx
  rw [getD_GrowMissile_row totem hcount hfit, getD_GrowMissile_row totem hcount hfit]
  obtain ⟨y, rfl⟩ : ∃ y, x = y + 1 := ⟨x - 1, by omega⟩
  rw [Nat.add_sub_cancel]
  cases y with
  | zero =>
    have c1 : ¬ ((0 + 1 = 0) ∨ 0 + 1 = totem.row.length) := by omega
    have c2 : 0 + 1 < totem.row.length := by omega
    rw [if_pos (Or.inl rfl), if_neg c1, if_pos c2, hfirst]
    have h2 := hnn (0 + 1)
    push_cast
    nlinarith
  | succ z =>
    have c1 : ¬ (z + 1 = 0 ∨ z + 1 = totem.row.length) := by omega
    have c2 : z + 1 < totem.row.length := by omega
    have c3 : ¬ (z + 1 + 1 = 0 ∨ z + 1 + 1 = totem.row.length) := by omega
    have c4 : z + 1 + 1 < totem.row.length := by omega
    rw [if_neg c1, if_pos c2, if_neg c3, if_pos c4]
    have r1 : totem.row.getD z 0 ≤ totem.row.getD (z + 1) 0 := by
      have := hr (z + 1) (by omega) (by omega)
      rwa [Nat.add_sub_cancel] at this
    have r2 : totem.row.getD (z + 1) 0 ≤ totem.row.getD (z + 1 + 1) 0 := by
      by_cases hmid : z + 1 + 1 ≤ (totem.row.length - 1) / 2
      · have := hr (z + 1 + 1) (by omega) hmid
        rwa [Nat.add_sub_cancel] at this
      · have hp := hpal.getD_eq (z + 1 + 1) c4
        have e : totem.row.length - 1 - (z + 1 + 1) = z + 1 := by omega
        rw [e] at hp
        rw [hp]
    have hz : (0 : Int) ≤ (totem.row.length : Int) - z := by omega
    have hz3 : (0 : Int) ≤ (z : Int) + 3 := by omega
    have m1 := mul_nonneg hz3 (sub_nonneg.2 r2)
    have m2 := mul_nonneg hz (sub_nonneg.2 r1)
    push_cast
    nlinarith

/-- In a row that rises to its middle, entries left of the middle are in order. -/
theorem Rising.getD_le_getD {row : List Int} (hr : Rising row) (j : Nat) :
    j ≤ (row.length - 1) / 2 → ∀ i : Nat, i ≤ j → row.getD i 0 ≤ row.getD j 0 := by
  induction j with
  | zero =>
    intro _ i hi
    have : i = 0 := by omega
    rw [this]
  | succ j ih =>
    intro hj i hi
    by_cases he : i = j + 1
    · rw [he]
    · have h1 := ih (by omega) i (by omega)
      have h2 := hr (j + 1) (by omega) hj
      rw [Nat.add_sub_cancel] at h2
      exact le_trans h1 h2

/-- In a palindromic row that rises to its middle, the middle entry is a maximum. -/
theorem getD_le_middle {row : List Int} (hpal : Palindromic row) (hr : Rising row)
    (x : Nat) (hx : x < row.length) :
    row.getD x 0 ≤ row.getD ((row.length - 1) / 2) 0 := by
  by_cases hle : x ≤ (row.length - 1) / 2
  · exact hr.getD_le_getD _ le_rfl x hle
  · rw [hpal.getD_eq x hx]
    exact hr.getD_le_getD _ le_rfl _ (by omega)

theorem missileTotem_palindromic (k : Nat) : Palindromic (missileTotem k).row :=
  (GrowAll_keeps_palindromic (List.replicate k Growth.Missile)).2

theorem missileTotem_rising (k : Nat) (hfit : (k : Int) + 1 ≤ 9223372036854775807) :
    Rising (missileTotem k).row := by
  induction k with
  | zero =>
    intro x h1 hx
    have : (missileTotem 0).row.length = 1 := rfl
    rw [this] at hx
    omega
  | succ k ih =>
    have hk : (k : Int) + 1 ≤ 9223372036854775807 := by push_cast at hfit; omega
    have hlen := length_missileTotem_row k
    have hcount : (missileTotem k).count = ((missileTotem k).row.length : Int) := by
      rw [count_missileTotem k hk, hlen]
      push_cast
      rfl
    rw [missileTotem_succ]
    refine GrowMissile_row_rising _ hcount (by rw [hlen]; push_cast at hfit ⊢; omega)
      (missileTotem_ends k).1 ?_ (missileTotem_palindromic k) (ih hk)
    intro i
    rw [getD_missileTotem_row k hk]
    exact Int.natCast_nonneg _

theorem BitLen_le_of_le (a b : Int) (ha : 0 ≤ a) (hab : a ≤ b) : BitLen a ≤ BitLen b := by
  obtain ⟨m, rfl⟩ := Int.eq_ofNat_of_zero_le ha
  obtain ⟨n, rfl⟩ := Int.eq_ofNat_of_zero_le (le_trans ha hab)
  rw [BitLen_eq_size, BitLen_eq_size, Int.natAbs_ofNat, Int.natAbs_ofNat]
  exact Nat.size_le_size (by exact_mod_cast hab)

/-- A set bit of a non-negative integer lies below its bit length. -/
theorem lt_BitLen_of_Bit_eq_one (v : Int) (hv : 0 ≤ v) (y : Nat) (h : Bit v y = 1) :
    y < BitLen v := by
  by_contra hlt
  rw [Bit_eq_zero_of_BitLen_le v hv y (by omega)] at h
  exact absurd h (by decide)

/-- The pixel `(x, height - y - 1)` of the image `WriteImage` builds, for a column `x` of
the row and a bit position `y` below the height: the pixel of bit `y` when `y` does not
exceed the bit length of `row[x]`, and `0` otherwise. -/
theorem GrayAt_WriteImage (totem : Totem) (x y : Nat) (hx : x < totem.row.length)
    (hy : y < BitLen (totem.row.getD ((totem.row.length - 1) / 2) 0)) :
    (totem.row.enum.foldl
      (drawColumn (BitLen (totem.row.getD ((totem.row.length - 1) / 2) 0)))
      (NewGray totem.row.length
        (BitLen (totem.row.getD ((totem.row.length - 1) / 2) 0)))).GrayAt x
        ((BitLen (totem.row.getD ((totem.row.length - 1) / 2) 0) : Int) - y - 1) =
      if y ≤ BitLen (totem.row.getD x 0) then bitPixel (totem.row.getD x 0) y else 0 := by
  have key := GrayAt_foldl_drawColumn
    (BitLen (totem.row.getD ((totem.row.length - 1) / 2) 0)) totem.row 0
    (NewGray totem.row.length (BitLen (totem.row.getD ((totem.row.length - 1) / 2) 0)))
    (WellFormed_NewGray _ _) rfl x y hx hy
  have hEnum : totem.row.enum = totem.row.enumFrom 0 := rfl
  rw [hEnum, key, GrayAt_NewGray, Nat.sub_zero]
  by_cases hb : y ≤ BitLen (totem.row.getD x 0)
  · rw [if_pos ⟨Nat.zero_le _, by omega, hb⟩, if_pos hb]
  · have hc : ¬ (0 ≤ x ∧ x < 0 + totem.row.length ∧ y ≤ BitLen (totem.row.getD x 0)) :=
      fun h => hb h.2.2
    rw [if_neg hc, if_neg hb]

/-! ## Claims -/

/-- C1: in every totem state reached from `NewTotem()` by a finite sequence of growth
calls (any methods, any order, any parameters) the length of the row equals the counter,
`len(row) == count`; the reached row is a Go slice, so its length is at most `2^63 - 1`. -/
theorem len_row_eq_count_of_reachable (calls : List Growth)
    (hfit : FitsSlice (NewTotem.GrowAll calls).row) :
    ((NewTotem.GrowAll calls).row.length : Int) = (NewTotem.GrowAll calls).count := by
  have hlen := length_GrowAll_row NewTotem calls
  have h1 : NewTotem.row.length = 1 := rfl
  unfold FitsSlice at hfit
  rw [count_GrowAll_NewTotem calls (by omega), hlen, h1]
  push_cast
  ring

theorem len_row_eq_count_of_reachable_witness :
    FitsSlice (NewTotem.GrowAll [.Missile, .Being 3 5, .Rocket 7, .Arrow]).row ∧
      ((NewTotem.GrowAll [.Missile, .Being 3 5, .Rocket 7, .Arrow]).row.length : Int) =
        (NewTotem.GrowAll [.Missile, .Being 3 5, .Rocket 7, .Arrow]).count :=
  ⟨by decide, len_row_eq_count_of_reachable _ (by decide)⟩

/-- C2: for every totem state and each of the six growth methods (with any parameters),
one call produces a row exactly one element longer than the old row and increases the
counter by exactly 1.  The counter is an `int64` that `count++` can increment, that is,
`count + 1` is an `int64` (in every state a client can build, `count` is the row length).
The claim also asks for a non-empty row; that is not needed. -/
theorem Grow_length_succ_and_count_succ (totem : Totem) (g : Growth)
    (hcount : IsInt64 (totem.count + 1)) :
    (totem.Grow g).row.length = totem.row.length + 1 ∧
      (totem.Grow g).count = totem.count + 1 := by
  refine ⟨length_Grow_row totem g, ?_⟩
  rw [count_Grow]
  exact wrap64_eq_self hcount

theorem Grow_length_succ_and_count_succ_witness :
    IsInt64 ((⟨3, [1, 4, 1]⟩ : Totem).count + 1) ∧
      ((⟨3, [1, 4, 1]⟩ : Totem).Grow (.Rocket 5)).row.length =
        (⟨3, [1, 4, 1]⟩ : Totem).row.length + 1 ∧
      ((⟨3, [1, 4, 1]⟩ : Totem).Grow (.Rocket 5)).count = (⟨3, [1, 4, 1]⟩ : Totem).count + 1 :=
  ⟨by decide, Grow_length_succ_and_count_succ _ _ (by decide)⟩

/-- C3: after any growth call the first and the last element of the new row both equal
the boundary value of the method: `1` for `GrowMissile`, `GrowArrow`, `GrowFace`,
`GrowRocket` and `GrowBody`, and the parameter `a` for `GrowBeing(a, b)`.  This holds for
every totem state (the claim asks for a non-empty row; an empty one behaves alike). -/
theorem Grow_first_and_last_eq_boundary (totem : Totem) (g : Growth) :
    (totem.Grow g).row.head? = some g.boundary ∧
      (totem.Grow g).row.getLast? = some g.boundary := by
  rw [List.head?_eq_getElem?, List.getLast?_eq_getElem?, length_Grow_row, Nat.add_sub_cancel]
  cases g <;>
    simp [Totem.Grow, Totem.GrowMissile, Totem.GrowArrow, Totem.GrowFace, Totem.GrowRocket,
      Totem.GrowBody, Totem.GrowBeing, getElem?_grow_row, Growth.boundary]

/-- C4: for every totem state with row of length `n` and counter `t`, and every index `x`
with `1 ≤ x ≤ n - 1`, the row after a parameterless growth call has
`next[x] = row[x-1] * cL + row[x] * cR` in exact integers, with `(cL, cR) = (t-x+1, x+1)`
for `GrowMissile`, `(t, t)` for `GrowArrow` and `(1, 1)` for `GrowFace`.  The row is a Go
slice and the `int64` coefficient `t-x+1` is in range (it is for every `t ≥ 0`).  Two
`GrowMissile` calls from `[1]` give `[1, 1]` and then `[1, 4, 1]`. -/
theorem interior_entry_of_parameterless_growth (totem : Totem) (x : Nat)
    (hfit : FitsSlice totem.row) (h1 : 1 ≤ x) (hx : x ≤ totem.row.length - 1)
    (hcoef : IsInt64 (totem.count - x + 1)) :
    (totem.GrowMissile.row[x]? =
        some (totem.row.getD (x - 1) 0 * (totem.count - x + 1) + totem.row.getD x 0 * (x + 1)) ∧
      totem.GrowArrow.row[x]? =
        some (totem.row.getD (x - 1) 0 * totem.count + totem.row.getD x 0 * totem.count) ∧
      totem.GrowFace.row[x]? =
        some (totem.row.getD (x - 1) 0 * 1 + totem.row.getD x 0 * 1)) ∧
    NewTotem.GrowMissile.row = [1, 1] ∧ NewTotem.GrowMissile.GrowMissile.row = [1, 4, 1] := by
  have hx0 : ¬ (x = 0 ∨ x = totem.row.length) := by omega
  have hxn : x < totem.row.length := by omega
  unfold FitsSlice at hfit
  refine ⟨⟨?_, ?_, ?_⟩, by decide, by decide⟩
  · unfold Totem.GrowMissile
    rw [getElem?_grow_row, if_neg hx0, if_pos hxn]
    simp only [growEntry, add64, sub64]
    rw [wrap64_add_wrap64, wrap64_eq_self hcoef,
      wrap64_eq_self (z := 1 + (x : Int)) ⟨by omega, by omega⟩, add_comm (1 : Int) (x : Int)]
  · unfold Totem.GrowArrow
    rw [getElem?_grow_row, if_neg hx0, if_pos hxn]
    rfl
  · unfold Totem.GrowFace
    rw [getElem?_grow_row, if_neg hx0, if_pos hxn]
    rfl

theorem interior_entry_of_parameterless_growth_witness :
    (FitsSlice (⟨3, [1, 4, 1]⟩ : Totem).row ∧ 1 ≤ 2 ∧ 2 ≤ (⟨3, [1, 4, 1]⟩ : Totem).row.length - 1 ∧
      IsInt64 ((⟨3, [1, 4, 1]⟩ : Totem).count - (2 : Nat) + 1)) ∧
    (((⟨3, [1, 4, 1]⟩ : Totem).GrowMissile.row[2]? = some ((4 : Int) * (3 - 2 + 1) + 1 * (2 + 1)) ∧
      (⟨3, [1, 4, 1]⟩ : Totem).GrowArrow.row[2]? = some ((4 : Int) * 3 + 1 * 3) ∧
      (⟨3, [1, 4, 1]⟩ : Totem).GrowFace.row[2]? = some ((4 : Int) * 1 + 1 * 1)) ∧
    NewTotem.GrowMissile.row = [1, 1] ∧ NewTotem.GrowMissile.GrowMissile.row = [1, 4, 1]) :=
  ⟨by decide,
    interior_entry_of_parameterless_growth ⟨3, [1, 4, 1]⟩ 2 (by decide) (by decide) (by decide)
      (by decide)⟩

/-- C5 fails as stated: in the reachable state `row = [1, 1]`, `count = 2` the call
`GrowRocket(2^63 - 1)` with a non-negative `int64` parameter computes both coefficients
`2 - 1 + mod` and `1 + mod` as the `int64` value `-2^63`, so `next[1] = -2^64`, whereas the
mathematical coefficients `2^63` give `2^64`. -/
theorem GrowRocket_coefficient_wraps_around :
    (NewTotem.GrowAll [.Face]).row = [1, 1] ∧ (NewTotem.GrowAll [.Face]).count = 2 ∧
    (0 : Int) ≤ 9223372036854775807 ∧ IsInt64 9223372036854775807 ∧
    1 ≤ 1 ∧ 1 ≤ (NewTotem.GrowAll [.Face]).row.length - 1 ∧
    ((NewTotem.GrowAll [.Face]).GrowRocket 9223372036854775807).row =
      [1, -18446744073709551616, 1] ∧
    ¬ (((NewTotem.GrowAll [.Face]).GrowRocket 9223372036854775807).row[1]? =
      some ((NewTotem.GrowAll [.Face]).row.getD (1 - 1) 0 *
            ((NewTotem.GrowAll [.Face]).count - (1 : Nat) + 9223372036854775807) +
          (NewTotem.GrowAll [.Face]).row.getD 1 0 * ((1 : Nat) + 9223372036854775807))) := by
  decide

/-- C5, amended: for every totem state with row length `n` and counter `t` (reachable or
not) and every interior index `1 ≤ x ≤ n - 1`: `GrowBody(mod)` gives
`next[x] = row[x-1]*mod + row[x]*mod` and `GrowBeing(a, b)` gives
`next[x] = row[x-1]*b + row[x]*b` in exact integers for every parameter, with no condition
on its size, and `GrowRocket(mod)` gives `next[x] = row[x-1]*(t-x+mod) + row[x]*(x+mod)`
whenever the two coefficients `t-x+mod` and `x+mod` are `int64` values (for a non-negative
`mod` on a reachable state: whenever they do not exceed `2^63 - 1`). -/
theorem interior_entry_of_parameterised_growth (totem : Totem) (mod a b : Int) (x : Nat)
    (h1 : 1 ≤ x) (hx : x ≤ totem.row.length - 1) :
    (IsInt64 (totem.count - x + mod) → IsInt64 (x + mod) →
      (totem.GrowRocket mod).row[x]? =
        some (totem.row.getD (x - 1) 0 * (totem.count - x + mod) +
          totem.row.getD x 0 * (x + mod))) ∧
      (totem.GrowBody mod).row[x]? =
        some (totem.row.getD (x - 1) 0 * mod + totem.row.getD x 0 * mod) ∧
      (totem.GrowBeing a b).row[x]? =
        some (totem.row.getD (x - 1) 0 * b + totem.row.getD x 0 * b) := by
  have hx0 : ¬ (x = 0 ∨ x = totem.row.length) := by omega
  have hxn : x < totem.row.length := by omega
  refine ⟨?_, ?_, ?_⟩
  · intro hL hR
    unfold Totem.GrowRocket
    rw [getElem?_grow_row, if_neg hx0, if_pos hxn]
    simp only [growEntry, add64, sub64]
    rw [wrap64_add_wrap64, wrap64_eq_self hL, wrap64_eq_self hR]
  · unfold Totem.GrowBody
    rw [getElem?_grow_row, if_neg hx0, if_pos hxn]
    rfl
  · unfold Totem.GrowBeing
    rw [getElem?_grow_row, if_neg hx0, if_pos hxn]
    rfl

theorem interior_entry_of_parameterised_growth_witness :
    (1 ≤ 2 ∧ 2 ≤ (NewTotem.GrowAll [.Missile, .Missile]).row.length - 1 ∧
      IsInt64 ((NewTotem.GrowAll [.Missile, .Missile]).count - (2 : Nat) + 7) ∧
      IsInt64 ((2 : Nat) + 7)) ∧
    ((NewTotem.GrowAll [.Missile, .Missile]).GrowRocket 7).row[2]? =
      some ((4 : Int) * (3 - 2 + 7) + 1 * (2 + 7)) ∧
    ((NewTotem.GrowAll [.Missile, .Missile]).GrowBody 9223372036854775807).row[2]? =
      some ((4 : Int) * 9223372036854775807 + 1 * 9223372036854775807) ∧
    ((NewTotem.GrowAll [.Missile, .Missile]).GrowBeing 9223372036854775807
        9223372036854775807).row[2]? =
      some ((4 : Int) * 9223372036854775807 + 1 * 9223372036854775807) :=
  ⟨by decide,
    (interior_entry_of_parameterised_growth (NewTotem.GrowAll [.Missile, .Missile]) 7 5 9 2
      (by decide) (by decide)).1 (by decide) (by decide),
    (interior_entry_of_parameterised_growth (NewTotem.GrowAll [.Missile, .Missile])
      9223372036854775807 9223372036854775807 9223372036854775807 2
      (by decide) (by decide)).2⟩

/-- C6: `NewTotem()` returns a totem whose row is exactly `[1]` and whose counter is `1`. -/
theorem NewTotem_row_and_count : NewTotem.row = [1] ∧ NewTotem.count = 1 := by
  constructor <;> rfl

/-- C7: for every `k ≥ 0`, after `k` calls of `GrowFace` on a new totem the row is row `k`
of Pascal's triangle: it has length `k + 1` and `row[x] = binomial(k, x)` for every
`0 ≤ x ≤ k`; the counter is `k + 1` (for every `k` whose row is a Go slice), so that
`binomial(k, x) = binomial(count - 1, x)`.  From `[1, 1]` `GrowFace` gives `[1, 2, 1]`. -/
theorem GrowFace_rows_are_pascal (k : Nat) :
    (NewTotem.GrowAll (List.replicate k Growth.Face)).row.length = k + 1 ∧
    (∀ x : Nat, x ≤ k →
      (NewTotem.GrowAll (List.replicate k Growth.Face)).row[x]? =
        some (Nat.choose k x : Int)) ∧
    (FitsSlice (NewTotem.GrowAll (List.replicate k Growth.Face)).row →
      (NewTotem.GrowAll (List.replicate k Growth.Face)).count = (k : Int) + 1 ∧
      ∀ x : Nat, x ≤ k →
        (NewTotem.GrowAll (List.replicate k Growth.Face)).row[x]? =
          some (Nat.choose
            ((NewTotem.GrowAll (List.replicate k Growth.Face)).count - 1).toNat x : Int)) ∧
    NewTotem.GrowFace.row = [1, 1] ∧ NewTotem.GrowFace.GrowFace.row = [1, 2, 1] := by
  have hrow := GrowAll_Face_row k
  have hentry : ∀ x : Nat, x ≤ k →
      (NewTotem.GrowAll (List.replicate k Growth.Face)).row[x]? =
        some (Nat.choose k x : Int) := by
    intro x hx
    rw [hrow, getElem?_pascalRow, if_pos (by omega)]
  refine ⟨by simp [hrow, pascalRow], hentry, ?_, by decide, by decide⟩
  intro hfit
  unfold FitsSlice at hfit
  rw [length_GrowAll_row, List.length_replicate] at hfit
  have h1 : NewTotem.row.length = 1 := rfl
  have hcount : (NewTotem.GrowAll (List.replicate k Growth.Face)).count = (k : Int) + 1 := by
    have := count_GrowAll_NewTotem (List.replicate k Growth.Face)
      (by rw [List.length_replicate]; omega)
    rwa [List.length_replicate] at this
  refine ⟨hcount, ?_⟩
  intro x hx
  rw [hcount, hentry x hx]
  simp

theorem GrowFace_rows_are_pascal_witness :
    (NewTotem.GrowAll (List.replicate 4 Growth.Face)).row = [1, 4, 6, 4, 1] ∧
    (NewTotem.GrowAll (List.replicate 4 Growth.Face)).row[2]? = some (Nat.choose 4 2 : Int) ∧
    (NewTotem.GrowAll (List.replicate 4 Growth.Face)).count = (4 : Nat) + 1 :=
  ⟨by decide, (GrowFace_rows_are_pascal 4).2.1 2 (by decide),
    ((GrowFace_rows_are_pascal 4).2.2.1 (by decide)).1⟩

/-- C8: for every row of length `n ≥ 1` the pixel grid built by `WriteImage` has width `n`
and height equal to the bit length of the element at index `(n-1)/2` (integer division),
that is, the binary size of its absolute value, and its buffer holds `width * height`
pixels.  The entries need not be non-negative for this.  The row `[1, 2, 1]` gives a grid
of 3 columns by 2 rows. -/
theorem WriteImage_width_and_height (totem : Totem) (hne : 1 ≤ totem.row.length) :
    (∃ img, totem.WriteImage = some img ∧ img.width = totem.row.length ∧
      img.height = BitLen (totem.row.getD ((totem.row.length - 1) / 2) 0) ∧
      img.height = Nat.size (totem.row.getD ((totem.row.length - 1) / 2) 0).natAbs ∧
      img.pix.length = img.width * img.height) ∧
    (∃ img, (⟨3, [1, 2, 1]⟩ : Totem).WriteImage = some img ∧ img.width = 3 ∧
      img.height = 2) := by
  refine ⟨⟨_, WriteImage_eq_some totem hne, ?_⟩,
    ⟨⟨[0, 255, 0, 255, 0, 255], 3, 3, 2⟩, by decide, by decide, by decide⟩⟩
  obtain ⟨h1, h2, h3⟩ := foldl_drawColumn_shape
    (BitLen (totem.row.getD ((totem.row.length - 1) / 2) 0)) totem.row.enum
    (NewGray totem.row.length (BitLen (totem.row.getD ((totem.row.length - 1) / 2) 0)))
    (WellFormed_NewGray _ _)
  exact ⟨h2, h3, h3.trans (BitLen_eq_size _), h1.2⟩

theorem WriteImage_width_and_height_witness :
    1 ≤ (NewTotem.GrowAll [.Missile, .Missile, .Missile]).row.length ∧
    ((∃ img, (NewTotem.GrowAll [.Missile, .Missile, .Missile]).WriteImage = some img ∧
      img.width = (NewTotem.GrowAll [.Missile, .Missile, .Missile]).row.length ∧
      img.height = BitLen ((NewTotem.GrowAll [.Missile, .Missile, .Missile]).row.getD
        (((NewTotem.GrowAll [.Missile, .Missile, .Missile]).row.length - 1) / 2) 0) ∧
      img.height = Nat.size ((NewTotem.GrowAll [.Missile, .Missile, .Missile]).row.getD
        (((NewTotem.GrowAll [.Missile, .Missile, .Missile]).row.length - 1) / 2) 0).natAbs ∧
      img.pix.length = img.width * img.height) ∧
    (∃ img, (⟨3, [1, 2, 1]⟩ : Totem).WriteImage = some img ∧ img.width = 3 ∧
      img.height = 2)) :=
  ⟨by decide, WriteImage_width_and_height _ (by decide)⟩

/-- C9: for every row of length `n ≥ 1` of non-negative integers, with
`h = bitLength(row[(n-1)/2])`, the grid built by `WriteImage` satisfies: for every column
`0 ≤ x < n` and every bit position `0 ≤ y < h`, the pixel at `(x, h-y-1)` is on (255) if
bit `y` of `row[x]` is 1 and off (0) otherwise, whether the bit length of the column is
below `h` or above it.  For `[1, 2, 1]`, pixel `(1, 0)` is on and pixel `(1, 1)` is off. -/
theorem WriteImage_pixel_eq_bit (totem : Totem) (hne : 1 ≤ totem.row.length)
    (hnn : ∀ v ∈ totem.row, 0 ≤ v) :
    (∃ img, totem.WriteImage = some img ∧
      img.height = BitLen (totem.row.getD ((totem.row.length - 1) / 2) 0) ∧
      ∀ x y : Nat, x < totem.row.length → y < img.height →
        img.GrayAt x ((img.height : Int) - y - 1) =
          if Bit (totem.row.getD x 0) y = 1 then 255 else 0) ∧
    (∃ img, (⟨3, [1, 2, 1]⟩ : Totem).WriteImage = some img ∧ img.GrayAt 1 0 = 255 ∧
      img.GrayAt 1 1 = 0) := by
  refine ⟨⟨_, WriteImage_eq_some totem hne, ?_⟩, ⟨⟨[0, 255, 0, 255, 0, 255], 3, 3, 2⟩, by decide, by decide, by decide⟩⟩
  obtain ⟨-, -, h3⟩ := foldl_drawColumn_shape
    (BitLen (totem.row.getD ((totem.row.length - 1) / 2) 0)) totem.row.enum
    (NewGray totem.row.length (BitLen (totem.row.getD ((totem.row.length - 1) / 2) 0)))
    (WellFormed_NewGray _ _)
  have h3' : (totem.row.enum.foldl
      (drawColumn (BitLen (totem.row.getD ((totem.row.length - 1) / 2) 0)))
      (NewGray totem.row.length
        (BitLen (totem.row.getD ((totem.row.length - 1) / 2) 0)))).height =
      BitLen (totem.row.getD ((totem.row.length - 1) / 2) 0) := h3
  refine ⟨h3', ?_⟩
  intro x y hx hy
  rw [h3'] at hy ⊢
  have hEnum : totem.row.enum = totem.row.enumFrom 0 := rfl
  have key := GrayAt_foldl_drawColumn
    (BitLen (totem.row.getD ((totem.row.length - 1) / 2) 0)) totem.row 0
    (NewGray totem.row.length (BitLen (totem.row.getD ((totem.row.length - 1) / 2) 0)))
    (WellFormed_NewGray _ _) rfl x y hx hy
  rw [hEnum, key, GrayAt_NewGray, Nat.sub_zero]
  by_cases hb : y ≤ BitLen (totem.row.getD x 0)
  · rw [if_pos ⟨Nat.zero_le _, by omega, hb⟩]
    rfl
  · have hc : ¬ (0 ≤ x ∧ x < 0 + totem.row.length ∧ y ≤ BitLen (totem.row.getD x 0)) :=
      fun h => hb h.2.2
    rw [if_neg hc, Bit_eq_zero_of_BitLen_le _ (getD_nonneg _ hnn x) y (by omega)]
    rfl

theorem WriteImage_pixel_eq_bit_witness :
    (1 ≤ (⟨3, [7, 2, 1]⟩ : Totem).row.length ∧
      ∀ v ∈ (⟨3, [7, 2, 1]⟩ : Totem).row, 0 ≤ v) ∧
    ((∃ img, (⟨3, [7, 2, 1]⟩ : Totem).WriteImage = some img ∧
      img.height = BitLen ((⟨3, [7, 2, 1]⟩ : Totem).row.getD
        (((⟨3, [7, 2, 1]⟩ : Totem).row.length - 1) / 2) 0) ∧
      ∀ x y : Nat, x < (⟨3, [7, 2, 1]⟩ : Totem).row.length → y < img.height →
        img.GrayAt x ((img.height : Int) - y - 1) =
          if Bit ((⟨3, [7, 2, 1]⟩ : Totem).row.getD x 0) y = 1 then 255 else 0) ∧
    (∃ img, (⟨3, [1, 2, 1]⟩ : Totem).WriteImage = some img ∧ img.GrayAt 1 0 = 255 ∧
      img.GrayAt 1 1 = 0)) :=
  ⟨by decide, WriteImage_pixel_eq_bit _ (by decide) (by decide)⟩

/-- C10 fails as stated: the calls `GrowFace()` and then `GrowRocket(2^63 - 1)` have only
non-negative parameters, and the row they reach from `NewTotem()` is `[1, -2^64, 1]`,
because both `int64` coefficients of the `GrowRocket` call wrap around to `-2^63`. -/
theorem negative_entry_after_GrowRocket :
    (∀ g ∈ [Growth.Face, Growth.Rocket 9223372036854775807], g.NonNegParams) ∧
    (NewTotem.GrowAll [.Face, .Rocket 9223372036854775807]).row =
      [1, -18446744073709551616, 1] ∧
    ¬ (∀ v ∈ (NewTotem.GrowAll [.Face, .Rocket 9223372036854775807]).row, 0 ≤ v) := by
  decide

/-- C10, amended: for every totem state reached from `NewTotem()` by growth calls whose
parameters (`mod`, `a`, `b`) are all non-negative and whose `GrowRocket(mod)` calls each
satisfy `count - 1 + mod ≤ 2^63 - 1` at the moment of the call (so that no `int64`
coefficient wraps around), every element of the row is non-negative.  The reached row is a
Go slice. -/
theorem row_nonneg_of_reachable (calls : List Growth)
    (hfit : FitsSlice (NewTotem.GrowAll calls).row)
    (hnn : ∀ g ∈ calls, g.NonNegParams)
    (hrange : NewTotem.RocketsInRange calls) :
    ∀ v ∈ (NewTotem.GrowAll calls).row, 0 ≤ v := by
  unfold FitsSlice at hfit
  rw [length_GrowAll_row] at hfit
  have h1 : NewTotem.row.length = 1 := rfl
  refine GrowAll_keeps_nonneg calls NewTotem rfl ?_ (by decide) hnn hrange
  rw [h1]
  omega

theorem row_nonneg_of_reachable_witness :
    (FitsSlice (NewTotem.GrowAll [.Missile, .Rocket 9223372036854775806, .Being 0 3]).row ∧
      (∀ g ∈ [Growth.Missile, Growth.Rocket 9223372036854775806, Growth.Being 0 3],
        g.NonNegParams) ∧
      NewTotem.RocketsInRange [.Missile, .Rocket 9223372036854775806, .Being 0 3]) ∧
    ∀ v ∈ (NewTotem.GrowAll [.Missile, .Rocket 9223372036854775806, .Being 0 3]).row, 0 ≤ v :=
  ⟨by decide, row_nonneg_of_reachable _ (by decide) (by decide) (by decide)⟩

/-- C11 fails as stated: on the totem with an empty row (the zero value of `Totem`)
`WriteImage` ends in a runtime panic of the index expression, not in an explicit
`InvalidInput` error condition. -/
theorem WriteImage_empty_row_is_runtime_panic :
    (⟨0, []⟩ : Totem).row.length = 0 ∧
    (⟨0, []⟩ : Totem).WriteImageOutcome = .failed .runtimePanic ∧
    (⟨0, []⟩ : Totem).WriteImageOutcome ≠ .failed (.errorCondition "InvalidInput") := by
  decide

/-- C11, amended: rendering a totem whose row is empty (`n == 0`) produces no grid: the
index expression `totem.row[(len(totem.row)-1)/2]` has index `0`, which is out of range,
and the call ends in a runtime panic; `WriteImage` has no guard and raises no error
condition of its own, `InvalidInput` or other. -/
theorem WriteImage_of_empty_row (totem : Totem) (h : totem.row = []) :
    (((totem.row.length : Int) - 1).tdiv 2).toNat = 0 ∧
    totem.WriteImage = none ∧
    totem.WriteImageOutcome = .failed .runtimePanic ∧
    ∀ name : String, totem.WriteImageOutcome ≠ .failed (.errorCondition name) := by
  have h1 : totem.WriteImage = none := by
    unfold Totem.WriteImage
    rw [h]
    rfl
  have h2 : totem.WriteImageOutcome = .failed .runtimePanic := by
    unfold Totem.WriteImageOutcome
    rw [h1]
  refine ⟨by rw [h]; rfl, h1, h2, ?_⟩
  intro name hname
  rw [h2] at hname
  cases hname

theorem WriteImage_of_empty_row_witness :
    (⟨0, []⟩ : Totem).row = [] ∧
    ((((⟨0, []⟩ : Totem).row.length : Int) - 1).tdiv 2).toNat = 0 ∧
    (⟨0, []⟩ : Totem).WriteImage = none ∧
    (⟨0, []⟩ : Totem).WriteImageOutcome = .failed .runtimePanic ∧
    ∀ name : String, (⟨0, []⟩ : Totem).WriteImageOutcome ≠ .failed (.errorCondition name) :=
  ⟨rfl, WriteImage_of_empty_row ⟨0, []⟩ rfl⟩

/-- C12 fails as stated: `GrowBeing(-1, 1)` on a new totem gives the row `[-1, -1]`, and
`WriteImage` renders it to a grid of 2 columns by 1 row with both pixels on; it does not
fail. -/
theorem WriteImage_renders_negative_row :
    (NewTotem.GrowBeing (-1) 1).row = [-1, -1] ∧
    (NewTotem.GrowBeing (-1) 1).WriteImage = some ⟨[255, 255], 2, 2, 1⟩ ∧
    (NewTotem.GrowBeing (-1) 1).WriteImageOutcome = .built ⟨[255, 255], 2, 2, 1⟩ ∧
    (NewTotem.GrowBeing (-1) 1).WriteImageOutcome ≠
      .failed (.errorCondition "InvalidInput") := by
  decide

/-- C12, amended: rendering a non-empty row that contains a negative value does not fail:
`WriteImage` checks no sign and builds a pixel grid of width `n` whose height is the bit
length of the absolute value of `row[(n-1)/2]`, as it does for every non-empty row. -/
theorem WriteImage_of_row_with_negative_value (totem : Totem)
    (hne : 1 ≤ totem.row.length) (_hneg : ∃ v ∈ totem.row, v < 0) :
    ∃ img, totem.WriteImage = some img ∧ totem.WriteImageOutcome = .built img ∧
      img.width = totem.row.length ∧
      img.height = Nat.size (totem.row.getD ((totem.row.length - 1) / 2) 0).natAbs := by
  have hsome := WriteImage_eq_some totem hne
  obtain ⟨-, h2, h3⟩ := foldl_drawColumn_shape
    (BitLen (totem.row.getD ((totem.row.length - 1) / 2) 0)) totem.row.enum
    (NewGray totem.row.length (BitLen (totem.row.getD ((totem.row.length - 1) / 2) 0)))
    (WellFormed_NewGray _ _)
  refine ⟨_, hsome, ?_, h2, h3.trans (BitLen_eq_size _)⟩
  unfold Totem.WriteImageOutcome
  rw [hsome]

theorem WriteImage_of_row_with_negative_value_witness :
    (1 ≤ (NewTotem.GrowAll [.Being (-3) 1, .Being (-3) 2]).row.length ∧
      ∃ v ∈ (NewTotem.GrowAll [.Being (-3) 1, .Being (-3) 2]).row, v < 0) ∧
    ∃ img, (NewTotem.GrowAll [.Being (-3) 1, .Being (-3) 2]).WriteImage = some img ∧
      (NewTotem.GrowAll [.Being (-3) 1, .Being (-3) 2]).WriteImageOutcome = .built img ∧
      img.width = (NewTotem.GrowAll [.Being (-3) 1, .Being (-3) 2]).row.length ∧
      img.height = Nat.size ((NewTotem.GrowAll [.Being (-3) 1, .Being (-3) 2]).row.getD
        (((NewTotem.GrowAll [.Being (-3) 1, .Being (-3) 2]).row.length - 1) / 2) 0).natAbs :=
  ⟨by decide, WriteImage_of_row_with_negative_value _ (by decide) (by decide)⟩

/-- C13 fails as stated: for the row `[1, 4, 1]` the method `String` returns `" 1 4 1"`,
which starts with a space, not the space-separated text `"1 4 1"`. -/
theorem String_has_leading_space :
    (⟨3, [1, 4, 1]⟩ : Totem).String = " 1 4 1" ∧
    (⟨3, [1, 4, 1]⟩ : Totem).String ≠ "1 4 1" ∧
    (⟨3, [1, 4, 1]⟩ : Totem).String ≠
      String.intercalate " " ((⟨3, [1, 4, 1]⟩ : Totem).row.map decimal) := by
  decide

/-- C13, amended: for every totem, `String()` returns the decimal representations of the
row's values in row order, each one preceded by a single space; for a non-empty row this is
one space followed by the values separated by single spaces, and for an empty row it is the
empty text.  For the row `[1, 4, 1]` the text is `" 1 4 1"`. -/
theorem String_eq_space_before_each_value (totem : Totem) :
    totem.String = String.join (totem.row.map (fun value => " " ++ decimal value)) ∧
    (totem.row ≠ [] →
      totem.String = " " ++ String.intercalate " " (totem.row.map decimal)) ∧
    (totem.row = [] → totem.String = "") ∧
    (⟨3, [1, 4, 1]⟩ : Totem).String = " 1 4 1" := by
  refine ⟨?_, ?_, ?_, by decide⟩
  · unfold Totem.String String.join
    rw [List.foldl_map]
  · intro hne
    unfold Totem.String
    cases hrow : totem.row with
    | nil => exact absurd hrow hne
    | cons v vs =>
      rw [List.foldl_cons, foldl_space_decimal, List.map_cons]
      show String.intercalate.go ("" ++ (" " ++ decimal v)) " " (vs.map decimal) =
        " " ++ String.intercalate.go (decimal v) " " (vs.map decimal)
      rw [String.empty_append, intercalate_go_append]
  · intro h
    unfold Totem.String
    rw [h]
    rfl

theorem String_eq_space_before_each_value_witness :
    (NewTotem.GrowAll [.Missile, .Missile, .Missile]).row ≠ [] ∧
    (NewTotem.GrowAll [.Missile, .Missile, .Missile]).String =
      " " ++ String.intercalate " "
        ((NewTotem.GrowAll [.Missile, .Missile, .Missile]).row.map decimal) ∧
    (NewTotem.GrowAll [.Missile, .Missile, .Missile]).String = " 1 11 11 1" :=
  ⟨by decide,
    (String_eq_space_before_each_value (NewTotem.GrowAll [.Missile, .Missile, .Missile])).2.1
      (by decide),
    by decide⟩

/-- C14: for every family, a growth call on a totem whose row has exactly one element
performs no interior write (the loop leaves `next` as it is) and yields the two-element
row `[boundary, boundary]`: `[1, 1]` for Missile, Arrow, Face, Rocket and Body, and `[a, a]`
for `GrowBeing(a, b)`; in particular this is so for the first growth call on a new totem. -/
theorem Grow_of_singleton_row (totem : Totem) (g : Growth) (v : Int) (h : totem.row = [v]) :
    (∀ (cL cR : Int → Int) (next : List Int), growLoop totem.row cL cR next = next) ∧
    (totem.Grow g).row = [g.boundary, g.boundary] ∧
    (NewTotem.Grow g).row = [g.boundary, g.boundary] := by
  obtain ⟨count, row⟩ := totem
  simp only at h
  subst h
  refine ⟨fun _ _ _ => rfl, ?_, ?_⟩ <;> cases g <;> rfl

theorem Grow_of_singleton_row_witness :
    (⟨1, [7]⟩ : Totem).row = [7] ∧
    ((∀ (cL cR : Int → Int) (next : List Int),
        growLoop (⟨1, [7]⟩ : Totem).row cL cR next = next) ∧
      ((⟨1, [7]⟩ : Totem).Grow (.Being 3 5)).row =
        [(Growth.Being 3 5).boundary, (Growth.Being 3 5).boundary] ∧
      (NewTotem.Grow (.Being 3 5)).row =
        [(Growth.Being 3 5).boundary, (Growth.Being 3 5).boundary]) :=
  ⟨rfl, Grow_of_singleton_row ⟨1, [7]⟩ (.Being 3 5) 7 rfl⟩

/-- C15: from the state `row = [1, 1]`, `count = 2` (the state after one growth call on a
new totem) `GrowArrow` and `GrowMissile` both yield `[1, 4, 1]`; the agreement is not an
invariant: in the reachable state `row = [1, 4, 1]`, `count = 3` `GrowArrow` yields
`[1, 15, 15, 1]` and `GrowMissile` yields `[1, 11, 11, 1]`. -/
theorem GrowArrow_and_GrowMissile_agree_once :
    NewTotem.GrowAll [.Missile] = ⟨2, [1, 1]⟩ ∧
    (⟨2, [1, 1]⟩ : Totem).GrowArrow.row = [1, 4, 1] ∧
    (⟨2, [1, 1]⟩ : Totem).GrowMissile.row = [1, 4, 1] ∧
    NewTotem.GrowAll [.Missile, .Missile] = ⟨3, [1, 4, 1]⟩ ∧
    (⟨3, [1, 4, 1]⟩ : Totem).GrowArrow.row = [1, 15, 15, 1] ∧
    (⟨3, [1, 4, 1]⟩ : Totem).GrowMissile.row = [1, 11, 11, 1] ∧
    (⟨3, [1, 4, 1]⟩ : Totem).GrowArrow.row ≠ (⟨3, [1, 4, 1]⟩ : Totem).GrowMissile.row := by
  decide

/-- C16: repeated `GrowMissile` from a new totem produces the rows of Euler's number
triangle: for every `k ≥ 0` whose row is a Go slice, after `k` calls of `GrowMissile` on
`NewTotem()` the counter is `n = k + 1`, the entries of the row are the Eulerian numbers of
order `n`, and they sum to `n!`.  The first rows are `[1]`, `[1, 1]`, `[1, 4, 1]` and
`[1, 11, 11, 1]`, with sums 1, 2, 6 and 24. -/
theorem missile_row_sum_eq_factorial (k : Nat) (hfit : FitsSlice (missileTotem k).row) :
    (missileTotem k).count = (k : Int) + 1 ∧
    (missileTotem k).row.sum = ((k + 1).factorial : Int) ∧
    (∀ x : Nat, (missileTotem k).row.getD x 0 = (eulerian (k + 1) x : Int)) ∧
    (missileTotem 0).row = [1] ∧ (missileTotem 1).row = [1, 1] ∧
    (missileTotem 2).row = [1, 4, 1] ∧ (missileTotem 3).row = [1, 11, 11, 1] ∧
    (missileTotem 0).row.sum = 1 ∧ (missileTotem 1).row.sum = 2 ∧
    (missileTotem 2).row.sum = 6 ∧ (missileTotem 3).row.sum = 24 := by
  unfold FitsSlice at hfit
  rw [length_missileTotem_row] at hfit
  have hk : (k : Int) + 1 ≤ 9223372036854775807 := by omega
  exact ⟨count_missileTotem k hk, sum_missileTotem_row k hk, getD_missileTotem_row k hk,
    by decide, by decide, by decide, by decide, by decide, by decide, by decide, by decide⟩

theorem missile_row_sum_eq_factorial_witness :
    FitsSlice (missileTotem 4).row ∧
    (missileTotem 4).row = [1, 26, 66, 26, 1] ∧
    (missileTotem 4).row.sum = ((4 + 1).factorial : Int) :=
  ⟨by decide, by decide, (missile_row_sum_eq_factorial 4 (by decide)).2.1⟩

/-- C17: every totem state reached from `NewTotem()` by any sequence of growth calls of
any families with any parameters has a palindromic row: `row[x] == row[len(row)-1-x]` for
every `0 ≤ x < len(row)`.  The coefficients of `GrowMissile` and `GrowRocket` mirror each
other because the counter equals the row length, also when `int64` values wrap around. -/
theorem row_palindromic_of_reachable (calls : List Growth) :
    ∀ x : Nat, x < (NewTotem.GrowAll calls).row.length →
      (NewTotem.GrowAll calls).row[x]? =
        (NewTotem.GrowAll calls).row[(NewTotem.GrowAll calls).row.length - 1 - x]? :=
  (GrowAll_keeps_palindromic calls).2

theorem row_palindromic_of_reachable_witness :
    1 < (NewTotem.GrowAll [.Missile, .Rocket 9223372036854775807, .Being (-2) 3,
      .Arrow]).row.length ∧
    (NewTotem.GrowAll [.Missile, .Rocket 9223372036854775807, .Being (-2) 3, .Arrow]).row[1]? =
      (NewTotem.GrowAll [.Missile, .Rocket 9223372036854775807, .Being (-2) 3, .Arrow]).row[
        (NewTotem.GrowAll [.Missile, .Rocket 9223372036854775807, .Being (-2) 3,
          .Arrow]).row.length - 1 - 1]? :=
  ⟨by decide, row_palindromic_of_reachable _ 1 (by decide)⟩

/-- C18: for every totem produced as in the example driver (`NewTotem()` followed by
`k ≥ 0` calls of `GrowMissile`, the row being a Go slice), the middle element
`row[(n-1)/2]` is a maximum of the row, so the bit length of every column is at most the
image height computed by `WriteImage`, and no set bit of any column is clipped: every set
bit `y` of `row[x]` lies below the height and its pixel `(x, height-y-1)` is on. -/
theorem missile_middle_is_maximum (k : Nat) (hfit : FitsSlice (missileTotem k).row) :
    (∀ x : Nat, x < (missileTotem k).row.length →
      (missileTotem k).row.getD x 0 ≤
        (missileTotem k).row.getD (((missileTotem k).row.length - 1) / 2) 0) ∧
    ∃ img, (missileTotem k).WriteImage = some img ∧
      img.height =
        BitLen ((missileTotem k).row.getD (((missileTotem k).row.length - 1) / 2) 0) ∧
      (∀ x : Nat, x < (missileTotem k).row.length →
        BitLen ((missileTotem k).row.getD x 0) ≤ img.height) ∧
      (∀ x y : Nat, x < (missileTotem k).row.length →
        Bit ((missileTotem k).row.getD x 0) y = 1 →
          y < img.height ∧ img.GrayAt x ((img.height : Int) - y - 1) = 255) := by
  unfold FitsSlice at hfit
  have hlen := length_missileTotem_row k
  have hk : (k : Int) + 1 ≤ 9223372036854775807 := by rw [hlen] at hfit; omega
  have hnn : ∀ i : Nat, 0 ≤ (missileTotem k).row.getD i 0 := by
    intro i
    rw [getD_missileTotem_row k hk]
    exact Int.natCast_nonneg _
  have hmax : ∀ x : Nat, x < (missileTotem k).row.length →
      (missileTotem k).row.getD x 0 ≤
        (missileTotem k).row.getD (((missileTotem k).row.length - 1) / 2) 0 :=
    getD_le_middle (missileTotem_palindromic k) (missileTotem_rising k hk)
  have hbits : ∀ x : Nat, x < (missileTotem k).row.length →
      BitLen ((missileTotem k).row.getD x 0) ≤
        BitLen ((missileTotem k).row.getD (((missileTotem k).row.length - 1) / 2) 0) :=
    fun x hx => BitLen_le_of_le _ _ (hnn x) (hmax x hx)
  obtain ⟨-, -, h3⟩ := foldl_drawColumn_shape
    (BitLen ((missileTotem k).row.getD (((missileTotem k).row.length - 1) / 2) 0))
    (missileTotem k).row.enum
    (NewGray (missileTotem k).row.length
      (BitLen ((missileTotem k).row.getD (((missileTotem k).row.length - 1) / 2) 0)))
    (WellFormed_NewGray _ _)
  have h3' : ((missileTotem k).row.enum.foldl
      (drawColumn
        (BitLen ((missileTotem k).row.getD (((missileTotem k).row.length - 1) / 2) 0)))
      (NewGray (missileTotem k).row.length
        (BitLen ((missileTotem k).row.getD
          (((missileTotem k).row.length - 1) / 2) 0)))).height =
      BitLen ((missileTotem k).row.getD (((missileTotem k).row.length - 1) / 2) 0) := h3
  refine ⟨hmax, _, WriteImage_eq_some (missileTotem k) (by omega), h3', ?_, ?_⟩
  · intro x hx
    rw [h3']
    exact hbits x hx
  · intro x y hx hbit
    have hy := lt_BitLen_of_Bit_eq_one _ (hnn x) y hbit
    have hyh := lt_of_lt_of_le hy (hbits x hx)
    rw [h3']
    refine ⟨hyh, ?_⟩
    rw [GrayAt_WriteImage (missileTotem k) x y hx hyh, if_pos (le_of_lt hy)]
    unfold bitPixel
    rw [if_pos hbit]

theorem missile_middle_is_maximum_witness :
    FitsSlice (missileTotem 4).row ∧
    (missileTotem 4).row = [1, 26, 66, 26, 1] ∧
    (missileTotem 4).row.getD 3 0 ≤
      (missileTotem 4).row.getD (((missileTotem 4).row.length - 1) / 2) 0 :=
  ⟨by decide, by decide, (missile_middle_is_maximum 4 (by decide)).1 3 (by decide)⟩

/-- C19: in every totem state reached from `NewTotem()` by growth calls the row is
non-empty, so the middle index `(len(row)-1)/2` that `WriteImage` uses for the image height
is a valid index into the row and `WriteImage` builds an image (it does not panic). -/
theorem middle_index_valid_of_reachable (calls : List Growth) :
    (NewTotem.GrowAll calls).row ≠ [] ∧
    ((((NewTotem.GrowAll calls).row.length : Int) - 1).tdiv 2).toNat <
      (NewTotem.GrowAll calls).row.length ∧
    ∃ img, (NewTotem.GrowAll calls).WriteImage = some img := by
  have hlen := length_GrowAll_row NewTotem calls
  have h1 : NewTotem.row.length = 1 := rfl
  have hpos : 1 ≤ (NewTotem.GrowAll calls).row.length := by omega
  refine ⟨?_, ?_, _, WriteImage_eq_some _ hpos⟩
  · intro h
    rw [h] at hpos
    exact absurd hpos (by decide)
  · rw [middle_index _ hpos]
    omega

/-- C20: the parameterised families specialise to the parameterless ones on every totem
state: `GrowRocket(1)` produces the same row and counter as `GrowMissile`, `GrowBody(1)`
the same as `GrowFace`, and `GrowBeing(1, m)` the same as `GrowBody(m)` for every `m`. -/
theorem parameterised_growth_specialises (totem : Totem) :
    totem.GrowRocket 1 = totem.GrowMissile ∧
    totem.GrowBody 1 = totem.GrowFace ∧
    ∀ m : Int, totem.GrowBeing 1 m = totem.GrowBody m := by
  refine ⟨?_, rfl, fun _ => rfl⟩
  unfold Totem.GrowRocket Totem.GrowMissile
  have h : (fun x : Int => add64 x 1) = (fun x : Int => add64 1 x) := by
    funext x
    unfold add64
    rw [add_comm]
  rw [h]

end Totemology
